import Mathlib

/-!
# Broadcast server (`src/index.js`): embedding and verified properties

The server keeps one messaging socket, answers pairing requests, and runs a
repeating broadcast loop.  This file embeds

* the string processing of the start handler (receiver parsing, template
  lines, delay parsing),
* the pairing handler,
* the whole server as a step function on an explicit state, one step per
  task the JavaScript event loop runs to completion (a request handler, a
  connection notification, a timer, the resumption of a send loop),

and proves the properties of the specification on them, or evaluates the
code where it departs from the specification.

Modelling conventions.

* JavaScript strings are lists of characters.  Every operation the source
  uses on strings (splitting on `,` or a newline, trimming, testing for ASCII
  digits, comparing with ASCII text) acts the same way on UTF-16 code units
  and on Unicode scalar values, so this is faithful for well-formed text.
* A form field is the text `toString()` gives for it, or absent; the uploaded
  file is its content, taken to be readable.
* An `async` function is cut at its `await`s.  The send loop is a small
  machine over its loop heads, run with fuel up to the next `await`; a run
  that never reaches one blocks the event loop for good (`hung`).
* The transport library is outside the source.  Its effects are events
  (a socket is created, notifies `open` or `close`, a send settles).  The
  model lets any socket that was made notify at any time; where a property
  needs a socket to be silent after its `close`, this is a stated hypothesis
  (`disciplined`).
* Numbers are exact integers up to `2^53` in magnitude; beyond, where a
  double rounds, only the sign is kept.
* The time printed in a log line is supplied with the event that writes it.
-/

namespace Broadcast

/-- A JavaScript string, as the list of its characters. -/
abbrev Str := List Char

/-! ## JavaScript string primitives used by the source -/

/-- Characters removed by `String.prototype.trim`: the ECMAScript `WhiteSpace`
and `LineTerminator` code points. -/
def isJsSpace (c : Char) : Bool :=
  let n := c.toNat
  n == 0x09 || n == 0x0A || n == 0x0B || n == 0x0C || n == 0x0D || n == 0x20 ||
  n == 0xA0 || n == 0x1680 || (0x2000 ≤ n && n ≤ 0x200A) || n == 0x2028 ||
  n == 0x2029 || n == 0x202F || n == 0x205F || n == 0x3000 || n == 0xFEFF

/-- Removal of the trailing characters satisfying `p`. -/
def dropTrailing (p : Char → Bool) : Str → Str
  | [] => []
  | c :: cs =>
    match dropTrailing p cs with
    | [] => if p c then [] else [c]
    | r :: rs => c :: r :: rs

/-- The method `String.prototype.trim`: leading, then trailing white space is
removed. -/
def trim (s : Str) : Str := dropTrailing isJsSpace (s.dropWhile isJsSpace)

/-- Puts a character in front of the first piece of a split. -/
def consHead (c : Char) : List Str → List Str
  | [] => [[c]]
  | t :: ts => (c :: t) :: ts

/-- The method `String.prototype.split` with a one-character separator: the pieces
between the separators, empty pieces included; the empty string gives one
empty piece. -/
def splitOn (sep : Char) : Str → List Str
  | [] => [[]]
  | c :: cs => if c = sep then [] :: splitOn sep cs else consHead c (splitOn sep cs)

/-- The method `String.prototype.endsWith`. -/
def endsWith (s suffix : Str) : Bool := s.drop (s.length - suffix.length) == suffix

/-- The test `/^\d{10,15}$/.test(r)`: from the start of `r` the quantifier
takes as many ASCII digits as it can, at most 15; it needs at least 10, and
`$` then requires the end of the input (taking fewer digits never helps). -/
def digits10to15 (r : Str) : Bool :=
  let k := min (r.takeWhile Char.isDigit).length 15
  decide (10 ≤ k) && r.length == k

/-- Case folding of the `i` flag, restricted to what can equal an ASCII
character: ASCII letters are put in upper case; a non-ASCII character is never
folded onto an ASCII one, so it can be left as it is. -/
def canon (c : Char) : Char := c.toUpper

/-- Whether the text starts with a case-insensitive copy of the pattern. -/
def matchesAt : Str → Str → Bool
  | [], _ => true
  | _ :: _, [] => false
  | p :: ps, c :: cs => canon p == canon c && matchesAt ps cs

/-- The call `text.replace(/pat/gi, '')` for a literal pattern: the text is scanned
from the left; a match is deleted and the scan goes on right after it
(`skip` counts the characters of the current match still to delete). -/
def removeCI (pat : Str) : Nat → Str → Str
  | _, [] => []
  | k + 1, _ :: cs => removeCI pat k cs
  | 0, c :: cs =>
    if matchesAt pat (c :: cs) then removeCI pat (pat.length - 1) cs
    else c :: removeCI pat 0 cs

/-- The group suffix `'@g.us'`. -/
def groupSuffix : Str := "@g.us".toList

/-- The individual suffix `'@s.whatsapp.net'`. -/
def userSuffix : Str := "@s.whatsapp.net".toList

/-- The placeholder of the pattern `/{name}/gi`. -/
def placeholder : Str := "{name}".toList

/-! ## The start handler's input processing (`src/index.js` 111-128) -/

/-- Line 111 and 113: `(field || '').toString().trim()`. -/
def fieldText (field : Option Str) : Str := trim (field.getD [])

/-- Lines 118-122: split on commas, trim, keep digit runs and group ids,
qualify the digit runs. -/
def parseReceivers (rawReceivers : Str) : List Str :=
  (((splitOn ',' rawReceivers).map trim).filter
      (fun r => digits10to15 r || endsWith r groupSuffix)).map
    (fun r => if endsWith r groupSuffix then r else r ++ userSuffix)

/-- The receiver list the handler computes from the `receiver` field. -/
def receiversOf (receiverField : Str) : List Str := parseReceivers (trim receiverField)

/-- Lines 125-128: each line of the file loses its placeholders, gets the
name and a space in front, is trimmed; empty results are dropped
(`filter(Boolean)`). -/
def buildLines (name content : Str) : List Str :=
  ((splitOn '\n' content).map
      (fun l => trim (name ++ ' ' :: removeCI placeholder 0 l))).filter
    (fun l => !l.isEmpty)

/-- The message lines the handler computes from the `name` field and the
file content. -/
def linesOf (nameField content : Str) : List Str := buildLines (trim nameField) content

/-! ## Delay parsing (`src/index.js` 112) -/

/-- Value of a character as a digit of the given radix, if it is one. -/
def digitVal (radix : Nat) (c : Char) : Option Nat :=
  let n := c.toNat
  let v :=
    if 48 ≤ n ∧ n ≤ 57 then n - 48
    else if 97 ≤ n ∧ n ≤ 122 then n - 87
    else if 65 ≤ n ∧ n ≤ 90 then n - 55
    else radix
  if v < radix then some v else none

/-- Reads the longest run of radix digits at the start of the text: the value
accumulated so far, and whether at least one digit was read. -/
def readDigits (radix : Nat) : Str → Nat → Bool → Nat × Bool
  | [], acc, seen => (acc, seen)
  | c :: cs, acc, seen =>
    match digitVal radix c with
    | some v => readDigits radix cs (acc * radix + v) true
    | none => (acc, seen)

/-- After the sign: a `0x` or `0X` mark switches to radix 16; `none` is `NaN`. -/
def parseIntUnsigned (s : Str) : Option Nat :=
  let (radix, body) :=
    match s with
    | '0' :: 'x' :: rest => (16, rest)
    | '0' :: 'X' :: rest => (16, rest)
    | _ => (10, s)
  match readDigits radix body 0 false with
  | (v, true) => some v
  | (_, false) => none

/-- A JavaScript number as far as this server meets one: `NaN`, an integer of
magnitude at most `2^53` (each of them is a double, exactly), or a number of
larger magnitude, which a double holds only rounded (or as an infinity) and of
which the model keeps the sign only. -/
inductive JsNumber where
  | nan
  | int (v : Int)
  | beyond (negative : Bool)
  deriving DecidableEq, Repr

/-- Largest magnitude up to which every integer is a double: `2^53`. -/
def maxExact : Nat := 9007199254740992

/-- The number with the given sign and magnitude (`-0` is `0`). -/
def JsNumber.ofParts (negative : Bool) (v : Nat) : JsNumber :=
  if v ≤ maxExact then .int (if negative then -(v : Int) else (v : Int)) else .beyond negative

/-- The number read after the sign: no digit gives `NaN`. -/
def JsNumber.ofParsed (negative : Bool) : Option Nat → JsNumber
  | none => .nan
  | some v => JsNumber.ofParts negative v

/-- The call `parseInt(text)` with no radix argument: leading white space is skipped,
an optional sign is read, then the digits. -/
def parseInt (input : Str) : JsNumber :=
  match input.dropWhile isJsSpace with
  | '-' :: rest => JsNumber.ofParsed true (parseIntUnsigned rest)
  | '+' :: rest => JsNumber.ofParsed false (parseIntUnsigned rest)
  | rest => JsNumber.ofParsed false (parseIntUnsigned rest)

/-- Line 112, `parseInt(fields.delay) || 2`: an absent field is `undefined`,
read as the text `undefined`; `NaN` and `0` are falsy, so both give 2. -/
def delaySecOf (delayField : Option Str) : JsNumber :=
  match parseInt (delayField.getD "undefined".toList) with
  | .nan => .int 2
  | .int v => if v = 0 then .int 2 else .int v
  | .beyond negative => .beyond negative

/-- Line 152: the wait after each attempt, `delaySec * 1000` milliseconds. -/
def delayMs : JsNumber → JsNumber
  | .nan => .nan
  | .int v => JsNumber.ofParts (decide (v < 0)) (v.natAbs * 1000)
  | .beyond negative => .beyond negative

/-! ## Responses -/

/-- The JSON body of a response. -/
inductive Body where
  | error (msg : String)
  | message (msg : String)
  | pairCode (code : String)
  deriving DecidableEq, Repr

/-- An HTTP response: status code and JSON body. -/
structure Response where
  status : Nat
  body : Body
  deriving DecidableEq, Repr

/-! ## The pairing handler (`src/index.js` 82-98) -/

/-- The call `number.replace(/\D/g, '')`: only the ASCII digits are kept. -/
def stripNonDigits (s : Str) : Str := s.filter Char.isDigit

/-- Answer of `POST /api/pair`.  `requestPairingCode` is the transport's
method on the socket held in `globalSocket`; it gives the code or throws
(`Except.error` carries `err.message`). -/
def pairHandler (globalSocket : Option Nat) (numberField : Option Str)
    (requestPairingCode : Nat → Str → Except String String) : Response :=
  let number := stripNonDigits (numberField.getD [])
  if number.isEmpty then ⟨400, .error "Phone number required"⟩
  else
    match globalSocket with
    | none => ⟨400, .error "Socket not ready"⟩
    | some sock =>
      match requestPairingCode sock number with
      | .ok code => ⟨200, .pairCode code⟩
      | .error msg => ⟨500, .error msg⟩

/-! ## The server state -/

/-- The object stored in `lastMessages`. -/
structure Job where
  receivers : List Str
  lines : List Str
  delaySec : JsNumber
  deriving DecidableEq, Repr

/-- Control points of one invocation of `sendMessages` (lines 137-156).
`atWhile`, `atLine` and `atRecv` are the loop heads; `inSend` and `inDelay`
are the two `await`s, where the invocation is suspended. -/
inductive Pc where
  | atWhile
  | atLine (i : Nat)
  | atRecv (i j : Nat)
  | inSend (i j : Nat)
  | inDelay (i j : Nat)
  | finished
  deriving DecidableEq, Repr

/-- One invocation of `sendMessages`: the `receivers`, `lines` and `delaySec`
its closure captured, and where it stands. -/
structure Loop where
  receivers : List Str
  lines : List Str
  delaySec : JsNumber
  pc : Pc
  deriving DecidableEq, Repr

/-- One call `sock.sendMessage(jid, { text })`. -/
structure Sent where
  sock : Nat
  jid : Str
  text : Str
  deriving DecidableEq, Repr

/-- The fields of a parsed form (lines 108-116): whether parsing failed, the
three text fields when present, and the content of the uploaded file when
there is one. -/
structure Form where
  err : Bool
  name : Option Str
  delay : Option Str
  receiver : Option Str
  file : Option Str
  deriving DecidableEq, Repr

/-- The module's variables (lines 23-32) and what the runtime holds for it:
the suspended `sendMessages` invocations, the forms being parsed, the
`startSocket` calls waiting in their `await`s, the delays of the pending
reconnect timers, the sockets made so far (numbered from 0, `nextSock` of
them) and those among them that have not yet notified `close`, the calls made
to `sendMessage`, and whether the event loop is stuck in a loop that never
yields. -/
structure Server where
  globalSocket : Option Nat
  isReady : Bool
  isLooping : Bool
  currentLoop : Option Nat
  messageLogs : List Str
  lastMessages : Job
  loops : List Loop
  parsing : Nat
  starting : Nat
  timers : List Nat
  live : List Nat
  nextSock : Nat
  sent : List Sent
  hung : Bool
  deriving DecidableEq, Repr

/-- State once the module is loaded: the initial values of lines 23-32, and
the call `startSocket()` of line 77 waiting in its first `await`. -/
def Server.initial : Server where
  globalSocket := none
  isReady := false
  isLooping := false
  currentLoop := none
  messageLogs := []
  lastMessages := ⟨[], [], .int 2⟩
  loops := []
  parsing := 0
  starting := 1
  timers := []
  live := []
  nextSock := 0
  sent := []
  hung := false

/-- The constant `DisconnectReason.loggedOut` of the transport library (status
401). -/
def loggedOut : Nat := 401

/-- A log line, lines 144-150: the time, a mark, the receiver. -/
def logLine (ok : Bool) (stamp jid : Str) : Str :=
  '[' :: stamp ++ (if ok then "] ✅ ".toList else "] ❌ ".toList) ++ jid

/-! ## The send loop (`src/index.js` 137-156) -/

/-- Stores the control point at which invocation `t` is suspended. -/
def park (l : Loop) (t : Nat) (pc : Pc) (s : Server) : Server :=
  { s with loops := s.loops.set t { l with pc := pc } }

/-- Runs invocation `t` of `sendMessages` from a control point up to its next
`await`, one loop head per unit of fuel.

* `while (isLooping)`: enter the pass over the lines, or return.
* `for (const line of lines)`: take line `i`, or go back to the `while`.
* `for (const jid of receivers)`: past the last receiver go to the next line;
  `if (!isLooping) break` leaves the receivers of this line; otherwise the
  message is attempted.  With no socket `globalSocket.sendMessage` throws at
  once: the failure is logged and the delay starts.  With a socket the call
  is made and the invocation waits for it.

Nothing else runs meanwhile, so without fuel left the event loop is stuck:
`hung` is set. -/
def runLoop (l : Loop) (t : Nat) (stamp : Str) : Nat → Pc → Server → Server
  | 0, _, s => { s with hung := true }
  | fuel + 1, .atWhile, s =>
    if s.isLooping then runLoop l t stamp fuel (.atLine 0) s
    else park l t .finished s
  | fuel + 1, .atLine i, s =>
    if i < l.lines.length then runLoop l t stamp fuel (.atRecv i 0) s
    else runLoop l t stamp fuel .atWhile s
  | fuel + 1, .atRecv i j, s =>
    if j < l.receivers.length then
      if !s.isLooping then runLoop l t stamp fuel (.atLine (i + 1)) s
      else
        match s.globalSocket with
        | none =>
          park l t (.inDelay i j)
            { s with messageLogs :=
                s.messageLogs ++ [logLine false stamp (l.receivers.getD j [])] }
        | some sock =>
          park l t (.inSend i j)
            { s with sent := s.sent ++ [⟨sock, l.receivers.getD j [], l.lines.getD i []⟩] }
    else runLoop l t stamp fuel (.atLine (i + 1)) s
  | _ + 1, pc, s => park l t pc s

/-- Loop heads an invocation can pass before it suspends or returns, when it
does so at all (`loopFuel_enough`): with `isLooping` false it leaves each
remaining line at its first receiver, two heads a line; while running it needs
at most five heads to come to the next receiver. -/
def loopFuel (l : Loop) : Nat := 2 * l.lines.length + 6

/-- The awaited `sendMessage` of invocation `t` settles: the outcome is logged
(lines 144-150) and the delay starts (line 152). -/
def sendSettled (s : Server) (t : Nat) (ok : Bool) (stamp : Str) : Server :=
  match s.loops[t]? with
  | some l =>
    match l.pc with
    | .inSend i j =>
      park l t (.inDelay i j)
        { s with messageLogs := s.messageLogs ++ [logLine ok stamp (l.receivers.getD j [])] }
    | _ => s
  | none => s

/-- The delay of invocation `t` is over: the receiver loop goes to its next
element. -/
def delayElapsed (s : Server) (t : Nat) (stamp : Str) : Server :=
  match s.loops[t]? with
  | some l =>
    match l.pc with
    | .inDelay i j => runLoop l t stamp (loopFuel l) (.atRecv i (j + 1)) s
    | _ => s
  | none => s

/-! ## The request handlers -/

/-- Handler of `POST /api/start`, line 104 and the call of `form.parse`: refused while
`isLooping`; otherwise the form is left to be parsed and nothing is answered
yet. -/
def startRequest (s : Server) : Server × Option Response :=
  if s.isLooping then (s, some ⟨400, .error "Already running"⟩)
  else ({ s with parsing := s.parsing + 1 }, none)

/-- The callback of `form.parse`, lines 108-160.  No response (`none`) means
that `sendMessages()` never reached an `await`, so that line 159 is never
reached. -/
def startParsed (s : Server) (form : Form) (stamp : Str) : Server × Option Response :=
  if form.err then (s, some ⟨500, .error "Form error"⟩)
  else
    let name := fieldText form.name
    let delaySec := delaySecOf form.delay
    let rawReceivers := fieldText form.receiver
    if rawReceivers.isEmpty then (s, some ⟨400, .error "Receivers required"⟩)
    else
      match form.file with
      | none => (s, some ⟨400, .error "File required"⟩)
      | some content =>
        let receivers := parseReceivers rawReceivers
        let lines := buildLines name content
        if s.globalSocket.isNone || !s.isReady then
          (s, some ⟨400, .error "WhatsApp not connected"⟩)
        else
          let l : Loop := ⟨receivers, lines, delaySec, .atWhile⟩
          let t := s.loops.length
          let s1 : Server :=
            { s with
              isLooping := true
              lastMessages := ⟨receivers, lines, delaySec⟩
              messageLogs := []
              loops := s.loops ++ [l] }
          let s2 := runLoop l t stamp (loopFuel l) .atWhile s1
          if s2.hung then (s2, none)
          else ({ s2 with currentLoop := some t }, some ⟨200, .message "Started"⟩)

/-- Handler of `POST /api/stop`, lines 164-168. -/
def stop (s : Server) : Server × Response :=
  ({ s with isLooping := false, currentLoop := none }, ⟨200, .message "Stopped"⟩)

/-- Handler of `GET /api/status`, lines 176-181: `(isConnected, isLooping)`. -/
def status (s : Server) : Bool × Bool := (s.isReady, s.isLooping)

/-! ## The connection (`src/index.js` 38-75) -/

/-- Entry of `startSocket`, line 39: nothing with a socket in place, otherwise
the call goes on to its `await`s. -/
def startSocket (s : Server) : Server :=
  if s.globalSocket.isSome then s else { s with starting := s.starting + 1 }

/-- Lines 44-74: a call of `startSocket` is through its `await`s; the socket
is made, its handlers are registered, and it becomes `globalSocket`. -/
def socketUp (s : Server) : Server :=
  if s.starting = 0 then s
  else
    { s with
      starting := s.starting - 1
      live := s.nextSock :: s.live
      nextSock := s.nextSock + 1
      globalSocket := some s.nextSock }

/-- Lines 56-59: `connection === 'open'`. -/
def onOpen (s : Server) : Server := { s with isReady := true }

/-- Line 69: the delay of `setTimeout(startSocket, 3000)`, in milliseconds. -/
def reconnectDelay : Nat := 3000

/-- Lines 61-71: `connection === 'close'` with the status code read from
`lastDisconnect`; unless it is the logged-out one, a timer for `startSocket`
is set. -/
def onClose (s : Server) (code : Nat) : Server :=
  { s with
    isReady := false
    globalSocket := none
    timers := if code ≠ loggedOut then s.timers ++ [reconnectDelay] else s.timers }

/-! ## The event loop -/

/-- What the event loop can run next.  The notifications of a socket reach
the handler of lines 53-72 registered on it; the handler does not look at
which socket notifies, nor at whether that socket has closed before. -/
inductive Event where
  | socketUp
  | connOpen (sock : Nat)
  | connClose (sock : Nat) (code : Nat)
  | reconnectTimer
  | startRequest
  | formParsed (form : Form) (stamp : Str)
  | stopRequest
  | sendSettled (t : Nat) (ok : Bool) (stamp : Str)
  | delayElapsed (t : Nat) (stamp : Str)
  deriving DecidableEq, Repr

/-- One task of the event loop.  An event that cannot occur in the state (a
timer that is not pending, a notification of a socket that was never made,
the settling of a call that was not made) changes nothing, and neither does
any event once the event loop is stuck.  The field `live` only records which
sockets have not notified `close` yet; no handler reads it. -/
def step (s : Server) (e : Event) : Server :=
  if s.hung then s
  else
    match e with
    | .socketUp => socketUp s
    | .connOpen k => if k < s.nextSock then onOpen s else s
    | .connClose k code =>
      if k < s.nextSock then onClose { s with live := s.live.erase k } code else s
    | .reconnectTimer =>
      match s.timers with
      | [] => s
      | _ :: rest => startSocket { s with timers := rest }
    | .startRequest => (startRequest s).1
    | .formParsed form stamp =>
      if s.parsing = 0 then s
      else (startParsed { s with parsing := s.parsing - 1 } form stamp).1
    | .stopRequest => (stop s).1
    | .sendSettled t ok stamp => sendSettled s t ok stamp
    | .delayElapsed t stamp => delayElapsed s t stamp

/-- The state after a sequence of events. -/
def run (s : Server) (es : List Event) : Server := es.foldl step s

/-! ## The claims' readings of the input processing -/

/-- Reading of a receiver token by the specification: 10 to 15 characters,
all of them digits, give the individual form; a token ending in the group
suffix is kept; anything else is discarded. -/
def specRecipient (tok : Str) : Option Str :=
  if 10 ≤ tok.length ∧ tok.length ≤ 15 ∧ ∀ c ∈ tok, c.isDigit = true then
    some (tok ++ userSuffix)
  else if groupSuffix <:+ tok then some tok
  else none

/-- Receiver list of the specification: the comma-separated tokens of the raw
string, trimmed, read one by one, in order. -/
def specReceivers (raw : Str) : List Str :=
  ((splitOn ',' raw).map trim).filterMap specRecipient

/-- One message line as the specification words it: the placeholders are
removed from the line, the name prefix and one space are put in front, and
the result is trimmed. -/
def claimLine (namePre line : Str) : Str :=
  trim (namePre ++ " ".toList ++ removeCI placeholder 0 line)

/-- Message lines as the specification words them: every line of the content
in order, transformed, the empty results dropped. -/
def claimLines (namePre content : Str) : List Str :=
  (splitOn '\n' content).filterMap
    (fun l => if claimLine namePre l = [] then none else some (claimLine namePre l))

/-! ## Auxiliary definitions for the statements -/

/-- The part of the state a send loop never writes. -/
def Server.ctl (s : Server) :
    Option Nat × Bool × Bool × Option Nat × Job × Nat × Nat × List Nat × List Nat × Nat :=
  (s.globalSocket, s.isReady, s.isLooping, s.currentLoop, s.lastMessages, s.parsing,
    s.starting, s.timers, s.live, s.nextSock)

/-- The loop heads from which a running job with no receiver, or with no line,
is entered. -/
def spinning (l : Loop) : Pc → Prop
  | .atWhile => l.receivers = [] ∨ l.lines = []
  | .atLine _ => l.receivers = [] ∨ l.lines = []
  | .atRecv _ _ => l.receivers = []
  | _ => False

/-- Position after `(i, j)` in the nested passes over `m` lines and `n`
receivers, wrapping round to the first line after the last one. -/
def nextPos (n m i j : Nat) : Nat × Nat :=
  if j + 1 < n then (i, j + 1) else if i + 1 < m then (i + 1, 0) else (0, 0)

/-- The events of a job's own loop `t` over some rounds: in each round the
awaited send settles with the given outcome at the given time, then the delay
elapses. -/
def rounds (t : Nat) : List (Bool × Str) → List Event
  | [] => []
  | (ok, stamp) :: rest =>
    .sendSettled t ok stamp :: .delayElapsed t stamp :: rounds t rest

/-- The `k`-th delivery attempt as the specification numbers it: line
`(k div n) mod m` to receiver `k mod n`, through the socket in place. -/
def attemptOf (receivers lines : List Str) (sock k : Nat) : Sent :=
  ⟨sock, receivers.getD (k % receivers.length) [],
    lines.getD ((k / receivers.length) % lines.length) []⟩

/-- The log line of the `k`-th attempt, given its outcome and time. -/
def entryOf (receivers : List Str) (k : Nat) (outcome : Bool × Str) : Str :=
  logLine outcome.1 outcome.2 (receivers.getD (k % receivers.length) [])

/-- Whether the event is the completion of a start (the callback of
`form.parse`), the only place where a job is set running. -/
def completesStart : Event → Bool
  | .formParsed _ _ => true
  | _ => false

/-- Whether an invocation of `sendMessages` waits for a send to settle. -/
def Loop.sending (l : Loop) : Bool :=
  match l.pc with
  | .inSend _ _ => true
  | _ => false

/-- Number of delivery attempts in flight: calls of `sendMessage` that have
not settled yet. -/
def inFlight (s : Server) : Nat := s.loops.countP Loop.sending

/-- The connection part of the state. -/
def Server.conn (s : Server) : Option Nat × Bool × Nat × List Nat × List Nat × Nat :=
  (s.globalSocket, s.isReady, s.starting, s.timers, s.live, s.nextSock)

/-- What can still lead to a socket notification: the pending reconnect
timers, the calls of `startSocket` under way, and the sockets that have not
closed. -/
def Server.pending (s : Server) : Nat := s.timers.length + s.starting + s.live.length

/-- Whether the event is an `open` notification. -/
def opens : Event → Bool
  | .connOpen _ => true
  | _ => false

/-- Whether the event respects the discipline of a transport whose sockets
notify nothing after their `close`: a notification comes from a socket that
has not notified `close` yet.  Other events are not concerned. -/
def allowed (s : Server) : Event → Bool
  | .connOpen k => decide (k ∈ s.live)
  | .connClose k _ => decide (k ∈ s.live)
  | _ => true

/-- Whether a run from the state respects that discipline at every event. -/
def disciplined : Server → List Event → Bool
  | _, [] => true
  | s, e :: es => allowed s e && disciplined (step s e) es

/-! ## Concrete inputs for the instances -/

/-- A connected server: the first socket is up and has notified `open`. -/
def connected : Server := run Server.initial [.socketUp, .connOpen 0]

/-- A start form: name `Bot`, delay `3`, one individual and one group
receiver, a file of two lines. -/
def formTwo : Form :=
  ⟨false, some "Bot".toList, some "3".toList, some "919876543210, 1203630@g.us".toList,
    some "Hello {name}!\nBye".toList⟩

/-- A start form whose only receiver token is `abc`. -/
def formAbc : Form :=
  ⟨false, some "Bot".toList, some "3".toList, some "abc".toList, some "Hello".toList⟩

/-- A start form with delay `0`, one receiver and two lines. -/
def formZero : Form :=
  ⟨false, some "A".toList, some "0".toList, some "919876543210".toList, some "x\ny".toList⟩

/-- A second start form, for another receiver. -/
def formOther : Form :=
  ⟨false, some "B".toList, some "1".toList, some "1203630@g.us".toList, some "z".toList⟩

/-- A time of day as the log prints it. -/
def noon : Str := "12:00:00".toList

/-- The job of `formTwo`, just started on the connected server: its first
send is in flight. -/
def running : Server := (startParsed connected formTwo noon).1

/-! ## Lemmas on the string primitives -/

theorem splitOn_ne_nil (sep : Char) (s : Str) : splitOn sep s ≠ [] := by
  induction s with
  | nil => simp [splitOn]
  | cons c cs ih =>
    unfold splitOn
    split
    · simp
    · cases h : splitOn sep cs with
      | nil => exact absurd h ih
      | cons t ts => simp [consHead]

theorem dropTrailing_cons (p : Char → Bool) (c : Char) (cs : Str) :
    dropTrailing p (c :: cs) =
      if dropTrailing p cs = [] then (if p c then [] else [c]) else c :: dropTrailing p cs := by
  cases h : dropTrailing p cs with
  | nil => simp [dropTrailing, h]
  | cons r rs => simp [dropTrailing, h]

/-- Removing leading and trailing characters can be done in either order. -/
theorem dropWhile_dropTrailing (p : Char → Bool) (s : Str) :
    (dropTrailing p s).dropWhile p = dropTrailing p (s.dropWhile p) := by
  induction s with
  | nil => simp [dropTrailing]
  | cons c cs ih =>
    rw [dropTrailing_cons]
    by_cases hc : p c = true
    · rw [List.dropWhile_cons_of_pos hc, ← ih]
      by_cases he : dropTrailing p cs = []
      · simp [he, hc]
      · simp [he, hc, List.dropWhile_cons_of_pos]
    · rw [List.dropWhile_cons_of_neg hc, dropTrailing_cons]
      by_cases he : dropTrailing p cs = []
      · simp [he, hc, List.dropWhile_cons_of_neg]
      · simp [he, hc, List.dropWhile_cons_of_neg]

theorem trim_eq_dropWhile_dropTrailing (s : Str) :
    trim s = (dropTrailing isJsSpace s).dropWhile isJsSpace := by
  rw [dropWhile_dropTrailing]; rfl

theorem trim_cons_space (c : Char) (t : Str) (hc : isJsSpace c = true) :
    trim (c :: t) = trim t := by
  simp [trim, List.dropWhile_cons_of_pos hc]

theorem map_trim_consHead_space (c : Char) (hc : isJsSpace c = true) (X : List Str)
    (hX : X ≠ []) : (consHead c X).map trim = X.map trim := by
  cases X with
  | nil => exact absurd rfl hX
  | cons t ts => simp [consHead, trim_cons_space c t hc]

/-- Leading white space of the whole string does not change the trimmed pieces. -/
theorem map_trim_splitOn_dropWhile (sep : Char) (hsep : isJsSpace sep = false) (s : Str) :
    (splitOn sep (s.dropWhile isJsSpace)).map trim = (splitOn sep s).map trim := by
  induction s with
  | nil => simp
  | cons c cs ih =>
    by_cases hc : isJsSpace c = true
    · have hne : c ≠ sep := by
        intro h; rw [h, hsep] at hc; exact Bool.noConfusion hc
      rw [List.dropWhile_cons_of_pos hc, ih]
      conv_rhs => rw [splitOn, if_neg hne]
      rw [map_trim_consHead_space c hc _ (splitOn_ne_nil sep cs)]
    · rw [List.dropWhile_cons_of_neg hc]

theorem map_dropTrailing_consHead (p : Char → Bool) (c : Char) (X Y : List Str)
    (hX : X ≠ []) (h : X.map (dropTrailing p) = Y.map (dropTrailing p)) :
    (consHead c X).map (dropTrailing p) = (consHead c Y).map (dropTrailing p) := by
  cases X with
  | nil => exact absurd rfl hX
  | cons t ts =>
    cases Y with
    | nil => simp at h
    | cons u us =>
      simp only [List.map_cons, List.cons.injEq] at h
      simp only [consHead, List.map_cons, List.cons.injEq]
      refine ⟨?_, h.2⟩
      rw [dropTrailing_cons, dropTrailing_cons p c u, h.1]

/-- Trailing white space of the whole string does not change the pieces once
their own trailing white space is removed. -/
theorem map_dropTrailing_splitOn (p : Char → Bool) (sep : Char) (hsep : p sep = false)
    (s : Str) :
    (splitOn sep (dropTrailing p s)).map (dropTrailing p) =
      (splitOn sep s).map (dropTrailing p) := by
  induction s with
  | nil => simp [dropTrailing]
  | cons c cs ih =>
    rw [dropTrailing_cons]
    by_cases he : dropTrailing p cs = []
    · rw [he] at ih
      rw [if_pos he]
      by_cases hc : p c = true
      · have hne : c ≠ sep := by
          intro h; rw [h, hsep] at hc; exact Bool.noConfusion hc
        rw [if_pos hc]
        conv_rhs => rw [splitOn, if_neg hne]
        rw [← map_dropTrailing_consHead p c _ _ (by simp [splitOn]) ih]
        simp [splitOn, consHead, dropTrailing, hc]
      · rw [if_neg hc]
        by_cases hs : c = sep
        · conv_rhs => rw [splitOn, if_pos hs]
          simp only [List.map_cons, ← ih]
          simp [splitOn, hs, dropTrailing]
        · conv_rhs => rw [splitOn, if_neg hs]
          rw [← map_dropTrailing_consHead p c _ _ (by simp [splitOn]) ih]
          simp [splitOn, hs, consHead, dropTrailing, hc]
    · rw [if_neg he]
      by_cases hs : c = sep
      · conv_rhs => rw [splitOn, if_pos hs]
        conv_lhs => rw [splitOn, if_pos hs]
        simp [ih]
      · conv_rhs => rw [splitOn, if_neg hs]
        conv_lhs => rw [splitOn, if_neg hs]
        exact map_dropTrailing_consHead p c _ _ (splitOn_ne_nil _ _) ih

/-- Trimming the whole string first does not change the trimmed pieces. -/
theorem map_trim_splitOn_trim (sep : Char) (hsep : isJsSpace sep = false) (s : Str) :
    (splitOn sep (trim s)).map trim = (splitOn sep s).map trim := by
  have key : ∀ X : List Str,
      X.map trim = (X.map (dropTrailing isJsSpace)).map (List.dropWhile isJsSpace) := by
    intro X
    rw [List.map_map]
    exact List.map_congr_left (fun t _ => trim_eq_dropWhile_dropTrailing t)
  rw [← map_trim_splitOn_dropWhile sep hsep s]
  show (splitOn sep (dropTrailing isJsSpace (s.dropWhile isJsSpace))).map trim = _
  rw [key, key (splitOn sep (s.dropWhile isJsSpace)),
    map_dropTrailing_splitOn isJsSpace sep hsep]

theorem endsWith_iff (s suffix : Str) : endsWith s suffix = true ↔ suffix <:+ s := by
  unfold endsWith
  rw [List.suffix_iff_eq_drop, beq_iff_eq]
  exact eq_comm

theorem digits10to15_iff (r : Str) :
    digits10to15 r = true ↔
      10 ≤ r.length ∧ r.length ≤ 15 ∧ ∀ c ∈ r, c.isDigit = true := by
  have hle : (r.takeWhile Char.isDigit).length ≤ r.length :=
    (List.takeWhile_sublist _).length_le
  have hall : (r.takeWhile Char.isDigit).length = r.length ↔ ∀ c ∈ r, c.isDigit = true := by
    rw [← List.takeWhile_eq_self_iff]
    constructor
    · intro h
      exact (List.takeWhile_sublist _).eq_of_length h
    · intro h; rw [h]
  simp only [digits10to15, Bool.and_eq_true, decide_eq_true_eq, beq_iff_eq]
  constructor
  · rintro ⟨h10, hk⟩
    have h1 : (r.takeWhile Char.isDigit).length = r.length := by omega
    exact ⟨by omega, by omega, hall.mp h1⟩
  · rintro ⟨h10, h15, hd⟩
    have h1 := hall.mpr hd
    omega

theorem digits_not_group (r : Str) (hd : ∀ c ∈ r, c.isDigit = true) : ¬ groupSuffix <:+ r := by
  rintro ⟨pre, rfl⟩
  have := hd 's' (by simp [groupSuffix])
  exact absurd this (by decide)

theorem specRecipient_eq (r : Str) :
    specRecipient r =
      if (digits10to15 r || endsWith r groupSuffix) = true then
        some (if endsWith r groupSuffix = true then r else r ++ userSuffix)
      else none := by
  unfold specRecipient
  by_cases hd : digits10to15 r = true
  · have hd2 := (digits10to15_iff r).mp hd
    have hg2 : endsWith r groupSuffix = false := by
      rw [← Bool.not_eq_true, endsWith_iff]; exact digits_not_group r hd2.2.2
    rw [if_pos hd2, hd, hg2]; rfl
  · have hd2 : ¬ (10 ≤ r.length ∧ r.length ≤ 15 ∧ ∀ c ∈ r, c.isDigit = true) :=
      fun h => hd ((digits10to15_iff r).mpr h)
    have hd3 : digits10to15 r = false := by simpa using hd
    rw [if_neg hd2, hd3]
    by_cases hg : endsWith r groupSuffix = true
    · rw [if_pos ((endsWith_iff r groupSuffix).mp hg), hg]; rfl
    · have hg3 : endsWith r groupSuffix = false := by simpa using hg
      rw [if_neg (fun h => hg ((endsWith_iff r groupSuffix).mpr h)), hg3]; rfl

theorem map_filter_eq_filterMap {α β : Type} (p : α → Bool) (f : α → β) (xs : List α) :
    (xs.filter p).map f = xs.filterMap (fun x => if p x = true then some (f x) else none) := by
  induction xs with
  | nil => rfl
  | cons x xs ih =>
    by_cases hp : p x = true
    · simp [List.filter_cons, List.filterMap_cons, hp, ih]
    · simp [List.filter_cons, List.filterMap_cons, hp, ih]

theorem parseReceivers_eq (raw : Str) :
    parseReceivers raw = ((splitOn ',' raw).map trim).filterMap specRecipient := by
  unfold parseReceivers
  rw [map_filter_eq_filterMap]
  congr 1
  funext r
  exact (specRecipient_eq r).symm

/-- Claim C1. For every raw receiver string the receiver list of the start
handler is the list of its comma-separated tokens, each trimmed, in order,
where a token of 10 to 15 digits gets the individual suffix, a token ending
in the group suffix is kept as it is, and any other token is dropped; on the
specification's example this is the two receivers it names. -/
theorem receiversOf_eq_specReceivers :
    (∀ raw : Str, receiversOf raw = specReceivers raw) ∧
      receiversOf "919876543210,919876543211@g.us,abc".toList =
        ["919876543210@s.whatsapp.net".toList, "919876543211@g.us".toList] := by
  refine ⟨fun raw => ?_, by decide⟩
  unfold receiversOf specReceivers
  rw [parseReceivers_eq, map_trim_splitOn_trim ',' (by decide)]

theorem buildLines_eq_claimLines (name content : Str) :
    buildLines name content = claimLines name content := by
  unfold buildLines claimLines
  induction splitOn '\n' content with
  | nil => rfl
  | cons l ls ih =>
    have hl : trim (name ++ ' ' :: removeCI placeholder 0 l) = claimLine name l := by
      simp [claimLine]
    by_cases he : claimLine name l = []
    · simp [List.filter_cons, List.filterMap_cons, hl, he, ih]
    · have he2 : (claimLine name l).isEmpty = false := by
        cases h : claimLine name l with
        | nil => exact absurd h he
        | cons _ _ => rfl
      simp [List.filter_cons, List.filterMap_cons, hl, he, he2, ih]

/-- Claim C2, as stated, fails. With the name field `"Bot "` (a trailing space)
and the one-line content `"Hi"` the handler produces `"Bot Hi"`, whereas
prepending the supplied prefix and one space and trimming gives `"Bot  Hi"`
(two spaces). -/
theorem linesOf_ne_claimLines_trailing_space :
    linesOf "Bot ".toList "Hi".toList = ["Bot Hi".toList] ∧
      claimLines "Bot ".toList "Hi".toList = ["Bot  Hi".toList] ∧
      linesOf "Bot ".toList "Hi".toList ≠ claimLines "Bot ".toList "Hi".toList := by
  decide

/-- Claim C2, amended. For every template content and every name field, the
message lines are obtained by taking each line of the content in order,
removing every case-insensitive occurrence of the placeholder, prepending the
trimmed name field and one space, trimming the result, and dropping the lines
that are then empty; the line `"Hello {name}!"` with name `"Bot"` gives
`"Bot Hello !"`. -/
theorem linesOf_eq_claimLines_trim :
    (∀ nameField content : Str, linesOf nameField content = claimLines (trim nameField) content) ∧
      linesOf "Bot".toList "Hello {name}!".toList = ["Bot Hello !".toList] := by
  refine ⟨fun nameField content => ?_, by decide⟩
  exact buildLines_eq_claimLines (trim nameField) content

/-! ## Lemmas on the send loop -/

theorem runLoop_atWhile (l : Loop) (t : Nat) (stamp : Str) (f : Nat) (s : Server) :
    runLoop l t stamp (f + 1) .atWhile s =
      if s.isLooping then runLoop l t stamp f (.atLine 0) s else park l t .finished s := by
  simp only [runLoop]

theorem runLoop_atLine (l : Loop) (t : Nat) (stamp : Str) (f i : Nat) (s : Server) :
    runLoop l t stamp (f + 1) (.atLine i) s =
      if i < l.lines.length then runLoop l t stamp f (.atRecv i 0) s
      else runLoop l t stamp f .atWhile s := by
  simp only [runLoop]

theorem runLoop_atRecv (l : Loop) (t : Nat) (stamp : Str) (f i j : Nat) (s : Server) :
    runLoop l t stamp (f + 1) (.atRecv i j) s =
      if j < l.receivers.length then
        if !s.isLooping then runLoop l t stamp f (.atLine (i + 1)) s
        else
          match s.globalSocket with
          | none =>
            park l t (.inDelay i j)
              { s with messageLogs :=
                  s.messageLogs ++ [logLine false stamp (l.receivers.getD j [])] }
          | some sock =>
            park l t (.inSend i j)
              { s with sent := s.sent ++ [⟨sock, l.receivers.getD j [], l.lines.getD i []⟩] }
      else runLoop l t stamp f (.atLine (i + 1)) s := by
  simp only [runLoop]

theorem runLoop_ctl (l : Loop) (t : Nat) (stamp : Str) (fuel : Nat) (pc : Pc) (s : Server) :
    (runLoop l t stamp fuel pc s).ctl = s.ctl := by
  induction fuel generalizing pc s with
  | zero => rfl
  | succ f ih =>
    cases pc with
    | atWhile =>
      simp only [runLoop]
      split
      · exact ih _ _
      · rfl
    | atLine i =>
      simp only [runLoop]
      split
      · exact ih _ _
      · exact ih _ _
    | atRecv i j =>
      simp only [runLoop]
      split
      · split
        · exact ih _ _
        · split <;> rfl
      · exact ih _ _
    | inSend i j => rfl
    | inDelay i j => rfl
    | finished => rfl

/-- More fuel does not change a run that reached an `await` or the end. -/
theorem runLoop_more_fuel (l : Loop) (t : Nat) (stamp : Str) (fuel : Nat) (pc : Pc)
    (s : Server) (h : (runLoop l t stamp fuel pc s).hung = false) :
    runLoop l t stamp (fuel + 1) pc s = runLoop l t stamp fuel pc s := by
  induction fuel generalizing pc s with
  | zero => simp [runLoop] at h
  | succ f ih =>
    cases pc with
    | atWhile =>
      simp only [runLoop] at h ⊢
      split
      · rename_i hl
        rw [if_pos hl] at h
        exact ih _ _ h
      · rfl
    | atLine i =>
      simp only [runLoop] at h ⊢
      split
      · rename_i hl
        rw [if_pos hl] at h
        exact ih _ _ h
      · rename_i hl
        rw [if_neg hl] at h
        exact ih _ _ h
    | atRecv i j =>
      simp only [runLoop] at h ⊢
      split
      · rename_i hj
        rw [if_pos hj] at h
        split
        · rename_i hl
          rw [if_pos hl] at h
          exact ih _ _ h
        · rfl
      · rename_i hj
        rw [if_neg hj] at h
        exact ih _ _ h
    | inSend i j => rfl
    | inDelay i j => rfl
    | finished => rfl

/-- While `isLooping` holds, a loop over no receiver or no line never reaches
an `await`, whatever the fuel. -/
theorem runLoop_spins (l : Loop) (t : Nat) (stamp : Str) (fuel : Nat) (pc : Pc)
    (s : Server) (hl : s.isLooping = true) (hp : spinning l pc) :
    (runLoop l t stamp fuel pc s).hung = true := by
  induction fuel generalizing pc with
  | zero => rfl
  | succ f ih =>
    cases pc with
    | atWhile =>
      simp only [runLoop, hl, if_true]
      exact ih _ hp
    | atLine i =>
      simp only [runLoop]
      split
      · rename_i hi
        rcases hp with hr | hm
        · exact ih _ hr
        · rw [hm] at hi; simp at hi
      · exact ih _ hp
    | atRecv i j =>
      have hr : l.receivers = [] := hp
      simp only [runLoop, hr, List.length_nil, Nat.not_lt_zero, if_false]
      exact ih _ (Or.inl hr)
    | inSend i j => exact absurd hp (by simp [spinning])
    | inDelay i j => exact absurd hp (by simp [spinning])
    | finished => exact absurd hp (by simp [spinning])

/-- Once `isLooping` is false the loop leaves every remaining line at its
first receiver and returns. -/
theorem runLoop_atLine_stopped (l : Loop) (t : Nat) (stamp : Str) (s : Server)
    (hl : s.isLooping = false) (d : Nat) :
    ∀ (i fuel : Nat), l.lines.length - i ≤ d → 2 * d + 2 ≤ fuel →
      runLoop l t stamp fuel (.atLine i) s = park l t .finished s := by
  induction d with
  | zero =>
    intro i fuel hi hf
    obtain ⟨f, rfl⟩ : ∃ f, fuel = f + 2 := ⟨fuel - 2, by omega⟩
    have h1 : ¬ i < l.lines.length := by omega
    simp [runLoop, h1, hl]
  | succ d ih =>
    intro i fuel hi hf
    obtain ⟨f, rfl⟩ : ∃ f, fuel = f + 2 := ⟨fuel - 2, by omega⟩
    by_cases h1 : i < l.lines.length
    · have h2 := ih (i + 1) f (by omega) (by omega)
      simp only [runLoop, h1, if_true, hl]
      split <;> simpa using h2
    · simp [runLoop, h1, hl]

theorem runLoop_atRecv_stopped (l : Loop) (t : Nat) (stamp : Str) (s : Server)
    (hl : s.isLooping = false) (i j : Nat) :
    runLoop l t stamp (loopFuel l) (.atRecv i j) s = park l t .finished s := by
  have h := runLoop_atLine_stopped l t stamp s hl (l.lines.length) (i + 1)
    (2 * l.lines.length + 5) (by omega) (by omega)
  show runLoop l t stamp ((2 * l.lines.length + 5) + 1) (.atRecv i j) s = _
  rw [runLoop_atRecv]
  simp only [hl, Bool.not_false, if_true, ite_self]
  exact h

theorem succ_div_mod (n k : Nat) (hn : 0 < n) :
    (k % n + 1 < n → (k + 1) / n = k / n ∧ (k + 1) % n = k % n + 1) ∧
    (¬ k % n + 1 < n → (k + 1) / n = k / n + 1 ∧ (k + 1) % n = 0) := by
  have h1 := Nat.div_add_mod k n
  have h2 := Nat.mod_lt k hn
  constructor
  · intro h
    rw [Nat.div_mod_unique hn]
    constructor
    · omega
    · exact h
  · intro h
    rw [Nat.div_mod_unique hn]
    constructor
    · have : k % n + 1 = n := by omega
      rw [Nat.mul_add]
      omega
    · exact hn

theorem nextPos_div_mod (n m k : Nat) (hn : 0 < n) (hm : 0 < m) :
    nextPos n m ((k / n) % m) (k % n) = (((k + 1) / n) % m, (k + 1) % n) := by
  unfold nextPos
  by_cases h : k % n + 1 < n
  · obtain ⟨h1, h2⟩ := (succ_div_mod n k hn).1 h
    rw [if_pos h, h1, h2]
  · obtain ⟨h1, h2⟩ := (succ_div_mod n k hn).2 h
    rw [if_neg h, h1, h2]
    by_cases h3 : (k / n) % m + 1 < m
    · rw [if_pos h3, ((succ_div_mod m (k / n) hm).1 h3).2]
    · rw [if_neg h3, ((succ_div_mod m (k / n) hm).2 h3).2]

theorem set_length_append {α : Type} (xs : List α) (a b : α) :
    (xs ++ [a]).set xs.length b = xs ++ [b] := by
  induction xs with
  | nil => rfl
  | cons x xs ih => simp [List.set, ih]

theorem parseReceivers_nil : parseReceivers [] = [] := by decide

/-- From the first receiver's head onwards, a running job with a socket, at
least one receiver and one line makes its next attempt. -/
theorem runLoop_next_attempt (l : Loop) (t : Nat) (stamp : Str) (s : Server) (sock i j : Nat)
    (hl : s.isLooping = true) (hs : s.globalSocket = some sock)
    (hn : 0 < l.receivers.length) (hm : 0 < l.lines.length) :
    runLoop l t stamp (loopFuel l) (.atRecv i (j + 1)) s =
      park l t
        (.inSend (nextPos l.receivers.length l.lines.length i j).1
          (nextPos l.receivers.length l.lines.length i j).2)
        { s with sent := s.sent ++
            [⟨sock, l.receivers.getD (nextPos l.receivers.length l.lines.length i j).2 [],
              l.lines.getD (nextPos l.receivers.length l.lines.length i j).1 []⟩] } := by
  show runLoop l t stamp ((2 * l.lines.length + 5) + 1) (.atRecv i (j + 1)) s = _
  unfold nextPos
  rw [runLoop_atRecv]
  by_cases h1 : j + 1 < l.receivers.length
  · simp [h1, hl, hs]
  · rw [if_neg h1, if_neg h1]
    show runLoop l t stamp ((2 * l.lines.length + 4) + 1) (.atLine (i + 1)) s = _
    rw [runLoop_atLine]
    by_cases h2 : i + 1 < l.lines.length
    · rw [if_pos h2, if_pos h2]
      show runLoop l t stamp ((2 * l.lines.length + 3) + 1) (.atRecv (i + 1) 0) s = _
      rw [runLoop_atRecv]
      simp [hn, hl, hs]
    · rw [if_neg h2, if_neg h2]
      show runLoop l t stamp ((2 * l.lines.length + 3) + 1) .atWhile s = _
      rw [runLoop_atWhile, if_pos hl]
      show runLoop l t stamp ((2 * l.lines.length + 2) + 1) (.atLine 0) s = _
      rw [runLoop_atLine, if_pos hm]
      show runLoop l t stamp ((2 * l.lines.length + 1) + 1) (.atRecv 0 0) s = _
      rw [runLoop_atRecv]
      simp [hn, hl, hs]

/-- The first attempt of a job that is started with a socket, at least one
receiver and one line. -/
theorem runLoop_first_attempt (l : Loop) (t : Nat) (stamp : Str) (s : Server) (sock : Nat)
    (hl : s.isLooping = true) (hs : s.globalSocket = some sock)
    (hn : 0 < l.receivers.length) (hm : 0 < l.lines.length) :
    runLoop l t stamp (loopFuel l) .atWhile s =
      park l t (.inSend 0 0)
        { s with sent := s.sent ++ [⟨sock, l.receivers.getD 0 [], l.lines.getD 0 []⟩] } := by
  show runLoop l t stamp ((2 * l.lines.length + 5) + 1) .atWhile s = _
  rw [runLoop_atWhile, if_pos hl]
  show runLoop l t stamp ((2 * l.lines.length + 4) + 1) (.atLine 0) s = _
  rw [runLoop_atLine, if_pos hm]
  show runLoop l t stamp ((2 * l.lines.length + 3) + 1) (.atRecv 0 0) s = _
  rw [runLoop_atRecv]
  simp [hn, hl, hs]

/-- What an accepted start does. -/
theorem startParsed_accepted (s : Server) (form : Form) (stamp : Str) (sock : Nat)
    (content : Str) (hh : s.hung = false) (hsock : s.globalSocket = some sock)
    (hready : s.isReady = true) (herr : form.err = false) (hfile : form.file = some content)
    (hr : parseReceivers (fieldText form.receiver) ≠ [])
    (hl : buildLines (fieldText form.name) content ≠ []) :
    startParsed s form stamp =
      ({ s with
          isLooping := true
          lastMessages :=
            ⟨parseReceivers (fieldText form.receiver), buildLines (fieldText form.name) content,
              delaySecOf form.delay⟩
          messageLogs := []
          loops := s.loops ++
            [⟨parseReceivers (fieldText form.receiver),
              buildLines (fieldText form.name) content, delaySecOf form.delay, .inSend 0 0⟩]
          sent := s.sent ++
            [⟨sock, (parseReceivers (fieldText form.receiver)).getD 0 [],
              (buildLines (fieldText form.name) content).getD 0 []⟩]
          currentLoop := some s.loops.length },
        some ⟨200, .message "Started"⟩) := by
  have hraw : (fieldText form.receiver).isEmpty = false := by
    cases h : fieldText form.receiver with
    | nil => rw [h] at hr; exact absurd parseReceivers_nil hr
    | cons _ _ => rfl
  have hn : 0 < (parseReceivers (fieldText form.receiver)).length :=
    List.length_pos.mpr hr
  have hm : 0 < (buildLines (fieldText form.name) content).length :=
    List.length_pos.mpr hl
  have hc : (s.globalSocket.isNone || !s.isReady) = false := by simp [hsock, hready]
  have key := runLoop_first_attempt
    ⟨parseReceivers (fieldText form.receiver), buildLines (fieldText form.name) content,
      delaySecOf form.delay, .atWhile⟩ s.loops.length stamp
    { s with
      isLooping := true
      lastMessages :=
        ⟨parseReceivers (fieldText form.receiver), buildLines (fieldText form.name) content,
          delaySecOf form.delay⟩
      messageLogs := []
      loops := s.loops ++
        [⟨parseReceivers (fieldText form.receiver), buildLines (fieldText form.name) content,
          delaySecOf form.delay, .atWhile⟩] } sock rfl hsock hn hm
  unfold startParsed
  simp only [herr, hraw, hfile, hc, Bool.false_eq_true, if_false]
  rw [key]
  simp [park, hh, set_length_append]

theorem getElem?_set_self_of_some {α : Type} (xs : List α) (t : Nat) (a b : α)
    (h : xs[t]? = some a) : (xs.set t b)[t]? = some b := by
  have ht : t < xs.length := by
    by_contra hc
    rw [List.getElem?_eq_none (by omega)] at h
    exact Option.noConfusion h
  simp [List.getElem?_set, ht]

/-- One round of a running job: the pending send settles, is logged, and
after the delay the next attempt is made. -/
theorem round_step (s : Server) (t sock : Nat) (r ls : List Str) (d : JsNumber) (i j : Nat)
    (ok : Bool) (stamp : Str)
    (hh : s.hung = false) (hl : s.isLooping = true) (hs : s.globalSocket = some sock)
    (hloop : s.loops[t]? = some ⟨r, ls, d, .inSend i j⟩)
    (hn : 0 < r.length) (hm : 0 < ls.length) :
    (step (step s (.sendSettled t ok stamp)) (.delayElapsed t stamp)).hung = false ∧
    (step (step s (.sendSettled t ok stamp)) (.delayElapsed t stamp)).isLooping = true ∧
    (step (step s (.sendSettled t ok stamp)) (.delayElapsed t stamp)).globalSocket = some sock ∧
    (step (step s (.sendSettled t ok stamp)) (.delayElapsed t stamp)).loops[t]? =
      some ⟨r, ls, d, .inSend (nextPos r.length ls.length i j).1
        (nextPos r.length ls.length i j).2⟩ ∧
    (step (step s (.sendSettled t ok stamp)) (.delayElapsed t stamp)).sent =
      s.sent ++ [⟨sock, r.getD (nextPos r.length ls.length i j).2 [],
        ls.getD (nextPos r.length ls.length i j).1 []⟩] ∧
    (step (step s (.sendSettled t ok stamp)) (.delayElapsed t stamp)).messageLogs =
      s.messageLogs ++ [logLine ok stamp (r.getD j [])] := by
  have e1 : ∃ s1, step s (.sendSettled t ok stamp) = s1 ∧ s1.hung = false ∧
      s1.isLooping = true ∧ s1.globalSocket = some sock ∧
      s1.loops = s.loops.set t ⟨r, ls, d, .inDelay i j⟩ ∧ s1.sent = s.sent ∧
      s1.messageLogs = s.messageLogs ++ [logLine ok stamp (r.getD j [])] := by
    refine ⟨_, rfl, ?_, ?_, ?_, ?_, ?_, ?_⟩ <;> simp [step, hh, sendSettled, hloop, park, hl, hs]
  obtain ⟨s1, hs1, hh1, hl1, hsock1, hloops1, hsent1, hlogs1⟩ := e1
  have hloop1 : s1.loops[t]? = some ⟨r, ls, d, .inDelay i j⟩ := by
    rw [hloops1]
    exact getElem?_set_self_of_some _ _ _ _ hloop
  have h3 := runLoop_next_attempt ⟨r, ls, d, .inDelay i j⟩ t stamp s1 sock i j hl1 hsock1 hn hm
  have h4 : step s1 (.delayElapsed t stamp) =
      runLoop ⟨r, ls, d, .inDelay i j⟩ t stamp (loopFuel ⟨r, ls, d, .inDelay i j⟩)
        (.atRecv i (j + 1)) s1 := by
    rw [step, if_neg (by simp [hh1])]
    simp only [delayElapsed, hloop1]
  rw [hs1, h4, h3]
  refine ⟨by simp [park, hh1], by simp [park, hl1], by simp [park, hsock1], ?_,
    by simp [park, hsent1], by simp [park, hlogs1]⟩
  simp only [park, hloops1]
  rw [List.set_set]
  exact getElem?_set_self_of_some _ _ _ _ hloop

theorem rounds_append (t : Nat) (os : List (Bool × Str)) (o : Bool × Str) :
    rounds t (os ++ [o]) = rounds t os ++ [.sendSettled t o.1 o.2, .delayElapsed t o.2] := by
  induction os with
  | nil => rfl
  | cons p ps ih => simp [rounds, ih]

theorem run_append (s : Server) (es fs : List Event) : run s (es ++ fs) = run (run s es) fs := by
  simp [run, List.foldl_append]

/-- A running job, driven by the settling of its sends and the end of its
delays, is after `K` rounds waiting for attempt `K`, has made attempts `0` to
`K` in order and logged attempts `0` to `K - 1` in order. -/
theorem rounds_invariant (s1 : Server) (t sock : Nat) (r ls : List Str) (d : JsNumber)
    (base : List Sent) (hh : s1.hung = false) (hl : s1.isLooping = true)
    (hs : s1.globalSocket = some sock)
    (hloop : s1.loops[t]? = some ⟨r, ls, d, .inSend 0 0⟩)
    (hn : 0 < r.length) (hm : 0 < ls.length)
    (hsent : s1.sent = base ++ [attemptOf r ls sock 0]) (hlogs : s1.messageLogs = [])
    (outcomes : List (Bool × Str)) :
    (run s1 (rounds t outcomes)).hung = false ∧
    (run s1 (rounds t outcomes)).isLooping = true ∧
    (run s1 (rounds t outcomes)).globalSocket = some sock ∧
    (run s1 (rounds t outcomes)).loops[t]? =
      some ⟨r, ls, d, .inSend ((outcomes.length / r.length) % ls.length)
        (outcomes.length % r.length)⟩ ∧
    (run s1 (rounds t outcomes)).sent =
      base ++ (List.range (outcomes.length + 1)).map (attemptOf r ls sock) ∧
    (run s1 (rounds t outcomes)).messageLogs =
      outcomes.enum.map (fun p => entryOf r p.1 p.2) := by
  induction outcomes using List.reverseRecOn with
  | nil =>
    refine ⟨hh, hl, hs, ?_, ?_, ?_⟩
    · simpa [run, rounds] using hloop
    · simpa [run, rounds] using hsent
    · simpa [run, rounds] using hlogs
  | append_singleton os o ih =>
    obtain ⟨ihh, ihl, ihs, ihloop, ihsent, ihlogs⟩ := ih
    have hstep := round_step (run s1 (rounds t os)) t sock r ls d
      ((os.length / r.length) % ls.length) (os.length % r.length) o.1 o.2
      ihh ihl ihs ihloop hn hm
    rw [nextPos_div_mod r.length ls.length os.length hn hm] at hstep
    obtain ⟨h1, h2, h3, h4, h5, h6⟩ := hstep
    have hrun : run s1 (rounds t (os ++ [o])) =
        step (step (run s1 (rounds t os)) (.sendSettled t o.1 o.2)) (.delayElapsed t o.2) := by
      rw [rounds_append, run_append]; rfl
    rw [hrun]
    refine ⟨h1, h2, h3, ?_, ?_, ?_⟩
    · rw [h4]; simp
    · rw [h5, ihsent, List.length_append, List.length_singleton,
        show List.range (os.length + 1 + 1) = List.range (os.length + 1) ++ [os.length + 1]
          from List.range_succ (os.length + 1),
        List.map_append, List.append_assoc]
      rfl
    · rw [h6, ihlogs, List.enum_append]
      simp [entryOf, List.enumFrom]

/-- Claim C5. For every accepted job with at least one receiver and one line,
as long as it keeps running (its own sends settle and its delays elapse, with
no stop and the socket in place), the `k`-th delivery attempt sends line
`(k div n) mod m` to receiver `k mod n`, and each settled attempt appends
exactly one log line, naming that receiver and marked as a success exactly
when the send raised no error: after `K` rounds the calls made are attempts
`0..K` in this order and the log holds the lines of attempts `0..K-1` in this
order. -/
theorem sendLoop_order (s : Server) (form : Form) (stamp : Str) (sock : Nat) (content : Str)
    (hh : s.hung = false) (hsock : s.globalSocket = some sock) (hready : s.isReady = true)
    (herr : form.err = false) (hfile : form.file = some content)
    (hr : parseReceivers (fieldText form.receiver) ≠ [])
    (hl : buildLines (fieldText form.name) content ≠ [])
    (outcomes : List (Bool × Str)) :
    (startParsed s form stamp).2 = some ⟨200, .message "Started"⟩ ∧
    (startParsed s form stamp).1.lastMessages =
      ⟨parseReceivers (fieldText form.receiver), buildLines (fieldText form.name) content,
        delaySecOf form.delay⟩ ∧
    (run (startParsed s form stamp).1 (rounds s.loops.length outcomes)).isLooping = true ∧
    (run (startParsed s form stamp).1 (rounds s.loops.length outcomes)).sent =
      s.sent ++ (List.range (outcomes.length + 1)).map
        (attemptOf (parseReceivers (fieldText form.receiver))
          (buildLines (fieldText form.name) content) sock) ∧
    (run (startParsed s form stamp).1 (rounds s.loops.length outcomes)).messageLogs =
      outcomes.enum.map
        (fun p => entryOf (parseReceivers (fieldText form.receiver)) p.1 p.2) := by
  have hstart := startParsed_accepted s form stamp sock content hh hsock hready herr hfile hr hl
  have hn : 0 < (parseReceivers (fieldText form.receiver)).length := List.length_pos.mpr hr
  have hm : 0 < (buildLines (fieldText form.name) content).length := List.length_pos.mpr hl
  have hinv := rounds_invariant (startParsed s form stamp).1 s.loops.length sock
    (parseReceivers (fieldText form.receiver)) (buildLines (fieldText form.name) content)
    (delaySecOf form.delay) s.sent
    (by rw [hstart]; exact hh) (by rw [hstart]) (by rw [hstart]; exact hsock)
    (by rw [hstart]; simp) hn hm (by rw [hstart]; simp [attemptOf]) (by rw [hstart]) outcomes
  exact ⟨by rw [hstart], by rw [hstart], hinv.2.1, hinv.2.2.2.2.1, hinv.2.2.2.2.2⟩

/-- Instance of C5: two receivers and two lines, four rounds of which the
second fails.  The five calls made go line by line, receiver by receiver,
and come round to the first line again; the log has the four settled
attempts in the same order. -/
theorem sendLoop_order_witness :
    (run (startParsed connected formTwo noon).1
        (rounds 0 [(true, noon), (false, noon), (true, noon), (true, noon)])).sent =
      [⟨0, "919876543210@s.whatsapp.net".toList, "Bot Hello !".toList⟩,
        ⟨0, "1203630@g.us".toList, "Bot Hello !".toList⟩,
        ⟨0, "919876543210@s.whatsapp.net".toList, "Bot Bye".toList⟩,
        ⟨0, "1203630@g.us".toList, "Bot Bye".toList⟩,
        ⟨0, "919876543210@s.whatsapp.net".toList, "Bot Hello !".toList⟩] ∧
    (run (startParsed connected formTwo noon).1
        (rounds 0 [(true, noon), (false, noon), (true, noon), (true, noon)])).messageLogs =
      ["[12:00:00] ✅ 919876543210@s.whatsapp.net".toList,
        "[12:00:00] ❌ 1203630@g.us".toList,
        "[12:00:00] ✅ 919876543210@s.whatsapp.net".toList,
        "[12:00:00] ✅ 1203630@g.us".toList] := by
  have h := sendLoop_order connected formTwo noon 0 "Hello {name}!\nBye".toList
    (by decide) (by decide) (by decide) (by decide) (by decide) (by decide) (by decide)
    [(true, noon), (false, noon), (true, noon), (true, noon)]
  refine ⟨?_, ?_⟩
  · rw [show connected.loops.length = 0 from by decide] at h
    rw [h.2.2.2.1]; decide
  · rw [show connected.loops.length = 0 from by decide] at h
    rw [h.2.2.2.2]; decide

theorem countP_set_of_some {α : Type} (p : α → Bool) (xs : List α) (t : Nat) (a b : α)
    (h : xs[t]? = some a) :
    (xs.set t b).countP p + (if p a then 1 else 0) = xs.countP p + (if p b then 1 else 0) := by
  induction xs generalizing t with
  | nil => simp at h
  | cons x xs ih =>
    cases t with
    | zero =>
      simp only [List.getElem?_cons_zero, Option.some.injEq] at h
      subst h
      simp only [List.set_cons_zero, List.countP_cons]
      omega
    | succ t =>
      simp only [List.getElem?_cons_succ] at h
      have := ih t h
      simp only [List.set_cons_succ, List.countP_cons]
      omega

theorem sendSettled_cases (s : Server) (t : Nat) (ok : Bool) (stamp : Str) :
    sendSettled s t ok stamp = s ∨
      ∃ l i j, s.loops[t]? = some l ∧ l.pc = .inSend i j ∧
        sendSettled s t ok stamp =
          park l t (.inDelay i j)
            { s with messageLogs := s.messageLogs ++ [logLine ok stamp (l.receivers.getD j [])] } := by
  cases hlt : s.loops[t]? with
  | none => left; simp [sendSettled, hlt]
  | some l =>
    cases hpc : l.pc with
    | inSend i j => right; exact ⟨l, i, j, rfl, hpc, by simp [sendSettled, hlt, hpc]⟩
    | atWhile => left; simp [sendSettled, hlt, hpc]
    | atLine i => left; simp [sendSettled, hlt, hpc]
    | atRecv i j => left; simp [sendSettled, hlt, hpc]
    | inDelay i j => left; simp [sendSettled, hlt, hpc]
    | finished => left; simp [sendSettled, hlt, hpc]

theorem delayElapsed_cases (s : Server) (t : Nat) (stamp : Str) :
    delayElapsed s t stamp = s ∨
      ∃ l i j, s.loops[t]? = some l ∧ l.pc = .inDelay i j ∧
        delayElapsed s t stamp = runLoop l t stamp (loopFuel l) (.atRecv i (j + 1)) s := by
  cases hlt : s.loops[t]? with
  | none => left; simp [delayElapsed, hlt]
  | some l =>
    cases hpc : l.pc with
    | inDelay i j => right; exact ⟨l, i, j, rfl, hpc, by simp [delayElapsed, hlt, hpc]⟩
    | atWhile => left; simp [delayElapsed, hlt, hpc]
    | atLine i => left; simp [delayElapsed, hlt, hpc]
    | atRecv i j => left; simp [delayElapsed, hlt, hpc]
    | inSend i j => left; simp [delayElapsed, hlt, hpc]
    | finished => left; simp [delayElapsed, hlt, hpc]

/-- With `isLooping` false, a task other than the completion of a start
leaves `isLooping` false, makes no call to `sendMessage`, and appends log
lines only for sends that were in flight, one for each. -/
theorem step_stopped (s : Server) (e : Event) (hl : s.isLooping = false)
    (he : completesStart e = false) :
    (step s e).isLooping = false ∧ (step s e).sent = s.sent ∧
      ∃ extra, (step s e).messageLogs = s.messageLogs ++ extra ∧
        extra.length + inFlight (step s e) ≤ inFlight s := by
  unfold step
  by_cases hh : s.hung = true
  · rw [if_pos hh]
    exact ⟨hl, rfl, [], by simp, by simp⟩
  · rw [if_neg hh]
    cases e with
    | socketUp =>
      refine ⟨?_, ?_, [], ?_, ?_⟩ <;> (simp only [socketUp]; split) <;> simp [hl, inFlight]
    | connOpen k =>
      refine ⟨?_, ?_, [], ?_, ?_⟩ <;> (simp only [onOpen]; split) <;> simp [hl, inFlight]
    | connClose k code =>
      refine ⟨?_, ?_, [], ?_, ?_⟩ <;> (simp only [onClose]; split) <;> simp [hl, inFlight]
    | reconnectTimer =>
      refine ⟨?_, ?_, [], ?_, ?_⟩ <;> (simp only [startSocket]; split) <;>
        (try split) <;> simp [hl, inFlight]
    | startRequest =>
      refine ⟨?_, ?_, [], ?_, ?_⟩ <;> simp [startRequest, hl, inFlight]
    | formParsed form stamp => simp [completesStart] at he
    | stopRequest =>
      refine ⟨?_, ?_, [], ?_, ?_⟩ <;> simp [stop, inFlight]
    | sendSettled t ok stamp =>
      dsimp only
      rcases sendSettled_cases s t ok stamp with h | ⟨l, i, j, hlt, hpc, h⟩
      · rw [h]; exact ⟨hl, rfl, [], by simp, by simp⟩
      · rw [h]
        refine ⟨by simp [park, hl], by simp [park],
          [logLine ok stamp (l.receivers.getD j [])], by simp [park], ?_⟩
        have hc := countP_set_of_some Loop.sending s.loops t l { l with pc := .inDelay i j } hlt
        simp only [Loop.sending, hpc, if_true] at hc
        simp only [inFlight, park, List.length_singleton]
        simp at hc
        omega
    | delayElapsed t stamp =>
      dsimp only
      rcases delayElapsed_cases s t stamp with h | ⟨l, i, j, hlt, hpc, h⟩
      · rw [h]; exact ⟨hl, rfl, [], by simp, by simp⟩
      · rw [h, runLoop_atRecv_stopped l t stamp s hl i (j + 1)]
        refine ⟨by simp [park, hl], by simp [park], [], by simp [park], ?_⟩
        have hc := countP_set_of_some Loop.sending s.loops t l { l with pc := .finished } hlt
        simp only [Loop.sending, hpc] at hc
        simp only [inFlight, park, List.length_nil]
        simp at hc
        omega

theorem run_stopped (s : Server) (es : List Event) (hl : s.isLooping = false)
    (hes : ∀ e ∈ es, completesStart e = false) :
    (run s es).isLooping = false ∧ (run s es).sent = s.sent ∧
      ∃ extra, (run s es).messageLogs = s.messageLogs ++ extra ∧
        extra.length + inFlight (run s es) ≤ inFlight s := by
  induction es generalizing s with
  | nil => exact ⟨hl, rfl, [], by simp [run], by simp [run]⟩
  | cons e es ih =>
    obtain ⟨h1, h2, x1, h3, h4⟩ := step_stopped s e hl (hes e (List.mem_cons_self _ _))
    obtain ⟨k1, k2, x2, k3, k4⟩ := ih (step s e) h1
      (fun e2 he2 => hes e2 (List.mem_cons_of_mem _ he2))
    have hr : run s (e :: es) = run (step s e) es := rfl
    rw [hr]
    refine ⟨k1, k2.trans h2, x1 ++ x2, ?_, ?_⟩
    · rw [k3, h3, List.append_assoc]
    · rw [List.length_append]; omega

/-- Claim C7. `stop` sets the running flag to false, always succeeds, and is
idempotent: a second stop, or a stop with no active job, gives the same
state.  Once a job has been stopped and as long as no start completes, the
running flag stays false, no call to `sendMessage` is made any more (the loop
returns at its next check of the flag), and the only log lines appended are
those of the sends that were in flight at the stop, at most one for each: at
most one in all when a single loop exists. -/
theorem stop_cooperative (s0 : Server) (es : List Event)
    (hes : ∀ e ∈ es, completesStart e = false) :
    (stop s0).1.isLooping = false ∧
    (stop s0).2 = ⟨200, .message "Stopped"⟩ ∧
    stop (stop s0).1 = stop s0 ∧
    (s0.isLooping = false → s0.currentLoop = none → (stop s0).1 = s0) ∧
    (run (stop s0).1 es).isLooping = false ∧
    (run (stop s0).1 es).sent = s0.sent ∧
    ∃ extra, (run (stop s0).1 es).messageLogs = s0.messageLogs ++ extra ∧
      extra.length + inFlight (run (stop s0).1 es) ≤ inFlight s0 ∧
      (s0.loops.length ≤ 1 → extra.length ≤ 1) := by
  obtain ⟨h1, h2, extra, h3, h4⟩ := run_stopped (stop s0).1 es rfl hes
  refine ⟨rfl, rfl, rfl, ?_, h1, h2, extra, h3, h4, ?_⟩
  · intro ha hb
    cases s0
    simp only [stop] at ha hb ⊢
    simp_all
  · intro hlen
    have h5 : inFlight s0 ≤ s0.loops.length := List.countP_le_length _
    have h6 : inFlight (stop s0).1 = inFlight s0 := rfl
    omega

/-- Instance of C7: the job of `formTwo` is stopped while its first send is
in flight; the send then settles and the delays elapse.  One line is logged,
for that send, and no further call is made. -/
theorem stop_cooperative_witness :
    (run (stop running).1
        [.sendSettled 0 true noon, .delayElapsed 0 noon, .delayElapsed 0 noon,
          .sendSettled 0 true noon, .stopRequest]).sent = running.sent ∧
    (run (stop running).1
        [.sendSettled 0 true noon, .delayElapsed 0 noon, .delayElapsed 0 noon,
          .sendSettled 0 true noon, .stopRequest]).messageLogs =
      ["[12:00:00] ✅ 919876543210@s.whatsapp.net".toList] ∧
    (run (stop running).1
        [.sendSettled 0 true noon, .delayElapsed 0 noon, .delayElapsed 0 noon,
          .sendSettled 0 true noon, .stopRequest]).loops.map Loop.pc = [.finished] := by
  refine ⟨(stop_cooperative running _ (by decide)).2.2.2.2.2.1, by decide, by decide⟩

/-! ## Lemmas on the connection -/

theorem runLoop_conn (l : Loop) (t : Nat) (stamp : Str) (fuel : Nat) (pc : Pc) (s : Server) :
    (runLoop l t stamp fuel pc s).conn = s.conn := by
  have h := runLoop_ctl l t stamp fuel pc s
  simp only [Server.ctl, Prod.mk.injEq] at h
  simp only [Server.conn, Prod.mk.injEq]
  exact ⟨h.1, h.2.1, h.2.2.2.2.2.2.1, h.2.2.2.2.2.2.2.1, h.2.2.2.2.2.2.2.2.1,
    h.2.2.2.2.2.2.2.2.2⟩

theorem startParsed_conn (s : Server) (form : Form) (stamp : Str) :
    (startParsed s form stamp).1.conn = s.conn := by
  unfold startParsed
  split
  · rfl
  · dsimp only
    split
    · rfl
    · split
      · rfl
      · split
        · rfl
        · split
          · rw [runLoop_conn]; rfl
          · show (runLoop _ _ _ _ _ _).conn = _
            rw [runLoop_conn]; rfl

theorem sendSettled_conn (s : Server) (t : Nat) (ok : Bool) (stamp : Str) :
    (sendSettled s t ok stamp).conn = s.conn := by
  rcases sendSettled_cases s t ok stamp with h | ⟨l, i, j, -, -, h⟩ <;> rw [h]
  rfl

theorem delayElapsed_conn (s : Server) (t : Nat) (stamp : Str) :
    (delayElapsed s t stamp).conn = s.conn := by
  rcases delayElapsed_cases s t stamp with h | ⟨l, i, j, -, -, h⟩ <;> rw [h]
  exact runLoop_conn _ _ _ _ _ _

/-- The request handlers and the send loops leave the connection alone. -/
theorem step_conn (s : Server) (e : Event)
    (he : e = .startRequest ∨ (∃ form stamp, e = .formParsed form stamp) ∨ e = .stopRequest ∨
      (∃ t ok stamp, e = .sendSettled t ok stamp) ∨ (∃ t stamp, e = .delayElapsed t stamp)) :
    (step s e).conn = s.conn := by
  unfold step
  split
  · rfl
  · rcases he with rfl | ⟨form, stamp, rfl⟩ | rfl | ⟨t, ok, stamp, rfl⟩ | ⟨t, stamp, rfl⟩
    · dsimp only
      unfold startRequest
      split <;> rfl
    · dsimp only
      split
      · rfl
      · rw [startParsed_conn]; rfl
    · rfl
    · exact sendSettled_conn s t ok stamp
    · exact delayElapsed_conn s t stamp

theorem erase_length_of_mem (k : Nat) (xs : List Nat) (h : k ∈ xs) :
    (xs.erase k).length + 1 = xs.length := by
  rw [List.length_erase_of_mem h]
  have : 0 < xs.length := List.length_pos_of_mem h
  omega

/-- A task run by an event loop that is not stuck. -/
theorem step_running (s : Server) (e : Event) (hh : s.hung = false) :
    step s e =
      match e with
      | .socketUp => socketUp s
      | .connOpen k => if k < s.nextSock then onOpen s else s
      | .connClose k code =>
        if k < s.nextSock then onClose { s with live := s.live.erase k } code else s
      | .reconnectTimer =>
        match s.timers with
        | [] => s
        | _ :: rest => startSocket { s with timers := rest }
      | .startRequest => (startRequest s).1
      | .formParsed form stamp =>
        if s.parsing = 0 then s
        else (startParsed { s with parsing := s.parsing - 1 } form stamp).1
      | .stopRequest => (stop s).1
      | .sendSettled t ok stamp => sendSettled s t ok stamp
      | .delayElapsed t stamp => delayElapsed s t stamp := by
  unfold step
  rw [if_neg (by simp [hh])]

theorem step_hung (s : Server) (e : Event) (hh : s.hung = true) : step s e = s := by
  unfold step
  rw [if_pos hh]

theorem pending_of_conn (s1 s2 : Server) (h : s1.conn = s2.conn) : s1.pending = s2.pending := by
  simp only [Server.conn, Prod.mk.injEq] at h
  simp only [Server.pending, h.2.2.1, h.2.2.2.1, h.2.2.2.2.1]

/-- A task that respects the discipline adds nothing to what can still lead
to a socket notification. -/
theorem step_pending_le (s : Server) (e : Event) (ha : allowed s e = true) :
    (step s e).pending ≤ s.pending := by
  by_cases hh : s.hung = true
  · rw [step_hung s e hh]
  · have hh2 : s.hung = false := by simpa using hh
    cases e with
    | socketUp =>
      rw [step_running s _ hh2]
      dsimp only
      unfold socketUp
      by_cases h0 : s.starting = 0
      · rw [if_pos h0]
      · rw [if_neg h0]
        simp only [Server.pending, List.length_cons]; omega
    | connOpen k =>
      rw [step_running s _ hh2]
      dsimp only
      by_cases hk : k < s.nextSock
      · rw [if_pos hk]; exact Nat.le_refl _
      · rw [if_neg hk]
    | connClose k code =>
      rw [step_running s _ hh2]
      dsimp only
      have hk2 : k ∈ s.live := by simpa [allowed] using ha
      by_cases hk : k < s.nextSock
      · rw [if_pos hk]
        have := erase_length_of_mem k s.live hk2
        simp only [Server.pending, onClose]
        split
        · simp only [List.length_append, List.length_singleton]; omega
        · omega
      · rw [if_neg hk]
    | reconnectTimer =>
      rw [step_running s _ hh2]
      dsimp only
      cases ht : s.timers with
      | nil => simp only [Server.pending, ht]; exact Nat.le_refl _
      | cons d rest =>
        simp only [startSocket]
        split
        · simp only [Server.pending, ht, List.length_cons]; omega
        · simp only [Server.pending, ht, List.length_cons]; omega
    | startRequest =>
      exact Nat.le_of_eq (pending_of_conn _ _ (step_conn s .startRequest (Or.inl rfl)))
    | formParsed form stamp =>
      exact Nat.le_of_eq (pending_of_conn _ _
        (step_conn s (.formParsed form stamp) (Or.inr (Or.inl ⟨form, stamp, rfl⟩))))
    | stopRequest =>
      exact Nat.le_of_eq (pending_of_conn _ _
        (step_conn s .stopRequest (Or.inr (Or.inr (Or.inl rfl)))))
    | sendSettled t ok stamp =>
      exact Nat.le_of_eq (pending_of_conn _ _ (step_conn s (.sendSettled t ok stamp)
        (Or.inr (Or.inr (Or.inr (Or.inl ⟨t, ok, stamp, rfl⟩))))))
    | delayElapsed t stamp =>
      exact Nat.le_of_eq (pending_of_conn _ _ (step_conn s (.delayElapsed t stamp)
        (Or.inr (Or.inr (Or.inr (Or.inr ⟨t, stamp, rfl⟩))))))

theorem disciplined_cons (s : Server) (e : Event) (es : List Event) :
    disciplined s (e :: es) = true ↔ allowed s e = true ∧ disciplined (step s e) es = true := by
  simp [disciplined]

theorem run_pending_le (s : Server) (es : List Event) (hd : disciplined s es = true) :
    (run s es).pending ≤ s.pending := by
  induction es generalizing s with
  | nil => exact Nat.le_refl _
  | cons e es ih =>
    obtain ⟨ha, hd2⟩ := (disciplined_cons s e es).mp hd
    exact Nat.le_trans (ih (step s e) hd2) (step_pending_le s e ha)

/-- From the loaded module on, as long as no socket notifies after its
`close`, at most one of the following exists at a time: a pending reconnect
timer, a call of `startSocket` under way, a socket that has not closed. -/
theorem pending_le_one (es : List Event) (hd : disciplined Server.initial es = true) :
    (run Server.initial es).pending ≤ 1 :=
  Nat.le_trans (run_pending_le Server.initial es hd) (by decide)

theorem step_conn_cases (s : Server) (e : Event) :
    (step s e).conn = s.conn ∨ e = .socketUp ∨ (∃ k, e = .connOpen k) ∨
      (∃ k code, e = .connClose k code) ∨ e = .reconnectTimer := by
  cases e with
  | socketUp => exact Or.inr (Or.inl rfl)
  | connOpen k => exact Or.inr (Or.inr (Or.inl ⟨k, rfl⟩))
  | connClose k code => exact Or.inr (Or.inr (Or.inr (Or.inl ⟨k, code, rfl⟩)))
  | reconnectTimer => exact Or.inr (Or.inr (Or.inr (Or.inr rfl)))
  | startRequest => exact Or.inl (step_conn s _ (Or.inl rfl))
  | formParsed form stamp => exact Or.inl (step_conn s _ (Or.inr (Or.inl ⟨form, stamp, rfl⟩)))
  | stopRequest => exact Or.inl (step_conn s _ (Or.inr (Or.inr (Or.inl rfl))))
  | sendSettled t ok stamp =>
    exact Or.inl (step_conn s _ (Or.inr (Or.inr (Or.inr (Or.inl ⟨t, ok, stamp, rfl⟩)))))
  | delayElapsed t stamp =>
    exact Or.inl (step_conn s _ (Or.inr (Or.inr (Or.inr (Or.inr ⟨t, stamp, rfl⟩)))))

/-- With no timer pending, no `startSocket` under way and no socket left,
no task that respects the discipline changes the connection part of the
state. -/
theorem step_conn_of_pending_zero (s : Server) (e : Event) (hp : s.pending = 0)
    (ha : allowed s e = true) : (step s e).conn = s.conn := by
  have ht : s.timers = [] := by
    apply List.eq_nil_of_length_eq_zero
    simp only [Server.pending] at hp; omega
  have hs : s.starting = 0 := by simp only [Server.pending] at hp; omega
  have hv : s.live = [] := by
    apply List.eq_nil_of_length_eq_zero
    simp only [Server.pending] at hp; omega
  by_cases hh : s.hung = true
  · rw [step_hung s e hh]
  · have hh2 : s.hung = false := by simpa using hh
    rcases step_conn_cases s e with h | rfl | ⟨k, rfl⟩ | ⟨k, code, rfl⟩ | rfl
    · exact h
    · rw [step_running s _ hh2]; simp [socketUp, hs]
    · simp [allowed, hv] at ha
    · simp [allowed, hv] at ha
    · rw [step_running s _ hh2]; simp [ht]

theorem run_conn_of_pending_zero (s : Server) (es : List Event) (hp : s.pending = 0)
    (hd : disciplined s es = true) : (run s es).conn = s.conn := by
  induction es generalizing s with
  | nil => rfl
  | cons e es ih =>
    obtain ⟨ha, hd2⟩ := (disciplined_cons s e es).mp hd
    have h1 := step_conn_of_pending_zero s e hp ha
    have h2 : (step s e).pending = 0 := by rw [pending_of_conn _ _ h1]; exact hp
    exact (ih (step s e) h2 hd2).trans h1

/-- Only an `open` notification sets `isReady`. -/
theorem step_isReady_false (s : Server) (e : Event) (hr : s.isReady = false)
    (he : opens e = false) : (step s e).isReady = false := by
  by_cases hh : s.hung = true
  · rw [step_hung s e hh]; exact hr
  · have hh2 : s.hung = false := by simpa using hh
    rcases step_conn_cases s e with h | rfl | ⟨k, rfl⟩ | ⟨k, code, rfl⟩ | rfl
    · simp only [Server.conn, Prod.mk.injEq] at h
      rw [h.2.1]; exact hr
    · rw [step_running s _ hh2]
      simp only [socketUp]
      split <;> simp [hr]
    · simp [opens] at he
    · rw [step_running s _ hh2]
      simp only [onClose]
      split <;> simp [hr]
    · rw [step_running s _ hh2]
      dsimp only
      cases s.timers with
      | nil => exact hr
      | cons d rest =>
        simp only [startSocket]
        split <;> simp [hr]

theorem run_isReady_false (s : Server) (es : List Event) (hr : s.isReady = false)
    (hes : ∀ e ∈ es, opens e = false) : (run s es).isReady = false := by
  induction es generalizing s with
  | nil => exact hr
  | cons e es ih =>
    exact ih (step s e) (step_isReady_false s e hr (hes e (List.mem_cons_self _ _)))
      (fun e2 he2 => hes e2 (List.mem_cons_of_mem _ he2))

/-- Claim C8, as stated, fails.  After a close notification with the
logged-out reason, an open notification of that same socket sets
`isConnected` again: the handler of lines 53-59 does not look at which socket
notifies.  And when a socket has notified `close` twice with another reason,
two restarts are under way; a logged-out close of the first new socket then
does not prevent the second one from being made. -/
theorem loggedOut_not_terminal :
    (run Server.initial [.socketUp, .connOpen 0, .connClose 0 loggedOut]).isReady = false ∧
    (run Server.initial [.socketUp, .connOpen 0, .connClose 0 loggedOut]).timers = [] ∧
    (status (run Server.initial
      [.socketUp, .connOpen 0, .connClose 0 loggedOut, .connOpen 0])).1 = true ∧
    (run Server.initial
      [.socketUp, .connClose 0 428, .connClose 0 428, .reconnectTimer, .reconnectTimer,
        .socketUp, .connClose 1 loggedOut]).globalSocket = none ∧
    (run Server.initial
      [.socketUp, .connClose 0 428, .connClose 0 428, .reconnectTimer, .reconnectTimer,
        .socketUp, .connClose 1 loggedOut, .socketUp, .connOpen 2]).globalSocket = some 2 ∧
    (status (run Server.initial
      [.socketUp, .connClose 0 428, .connClose 0 428, .reconnectTimer, .reconnectTimer,
        .socketUp, .connClose 1 loggedOut, .socketUp, .connOpen 2])).1 = true := by
  decide

/-- Claim C8, amended.  For every close notification of a socket: the socket
is dropped from `globalSocket`, `isConnected` becomes false, and it stays
false as long as no open notification arrives.  When the reason is not
logged-out, exactly one timer for `startSocket` is set, with the fixed delay;
when a timer fires, `startSocket` goes past its guard, and the socket it then
makes is a fresh one that becomes `globalSocket`, not yet connected.  When the
reason is logged-out, no timer is set; and provided no socket notifies after
its `close`, from the loaded module up to this close and afterwards, nothing
is left that could reconnect: whatever happens next, `isConnected` is false,
there is no socket, and no socket is made. -/
theorem reconnect_policy (s : Server) (k code : Nat) (es : List Event)
    (hh : s.hung = false) (hk : k < s.nextSock) :
    (step s (.connClose k code)).globalSocket = none ∧
    (step s (.connClose k code)).isReady = false ∧
    ((∀ e ∈ es, opens e = false) →
      (run (step s (.connClose k code)) es).isReady = false) ∧
    (code ≠ loggedOut →
      (step s (.connClose k code)).timers = s.timers ++ [reconnectDelay] ∧
      (step (step s (.connClose k code)) .reconnectTimer).starting = s.starting + 1 ∧
      (step (step s (.connClose k code)) .reconnectTimer).timers.length = s.timers.length ∧
      (run (step s (.connClose k code)) [.reconnectTimer, .socketUp]).globalSocket =
        some s.nextSock ∧
      (run (step s (.connClose k code)) [.reconnectTimer, .socketUp]).nextSock =
        s.nextSock + 1 ∧
      s.nextSock ∈ (run (step s (.connClose k code)) [.reconnectTimer, .socketUp]).live ∧
      (run (step s (.connClose k code)) [.reconnectTimer, .socketUp]).starting = s.starting ∧
      (run (step s (.connClose k code)) [.reconnectTimer, .socketUp]).isReady = false) ∧
    (code = loggedOut →
      (step s (.connClose k code)).timers = s.timers ∧
      ((∃ es0, disciplined Server.initial es0 = true ∧ run Server.initial es0 = s) →
        k ∈ s.live → disciplined (step s (.connClose k code)) es = true →
        (step s (.connClose k code)).pending = 0 ∧
        (run (step s (.connClose k code)) es).isReady = false ∧
        (run (step s (.connClose k code)) es).globalSocket = none ∧
        (run (step s (.connClose k code)) es).nextSock = s.nextSock ∧
        (run (step s (.connClose k code)) es).pending = 0)) := by
  have hstep : step s (.connClose k code) = onClose { s with live := s.live.erase k } code := by
    rw [step_running s _ hh]
    simp [hk]
  rw [hstep]
  refine ⟨rfl, rfl, fun hes => run_isReady_false _ es rfl hes, ?_, ?_⟩
  · intro hc
    have ht : (onClose { s with live := s.live.erase k } code).timers =
        s.timers ++ [reconnectDelay] := by simp [onClose, hc]
    have hh1 : (onClose { s with live := s.live.erase k } code).hung = false := hh
    have h2 : step (onClose { s with live := s.live.erase k } code) .reconnectTimer =
        { onClose { s with live := s.live.erase k } code with
          timers := (s.timers ++ [reconnectDelay]).tail
          starting := s.starting + 1 } := by
      rw [step_running _ _ hh1]
      dsimp only
      rw [ht]
      cases hts : s.timers with
      | nil => simp [startSocket, onClose]
      | cons d rest => simp [startSocket, onClose]
    have h3 : run (onClose { s with live := s.live.erase k } code) [.reconnectTimer, .socketUp] =
        socketUp { onClose { s with live := s.live.erase k } code with
          timers := (s.timers ++ [reconnectDelay]).tail
          starting := s.starting + 1 } := by
      show step (step _ .reconnectTimer) .socketUp = _
      rw [h2, step_running _ _ (by exact hh)]
    refine ⟨ht, by rw [h2], ?_, ?_, ?_, ?_, ?_, ?_⟩
    · rw [h2]; simp
    · rw [h3]; simp [socketUp, onClose]
    · rw [h3]; simp [socketUp, onClose]
    · rw [h3]; simp [socketUp, onClose]
    · rw [h3]; simp [socketUp, onClose]
    · rw [h3]; simp [socketUp, onClose]
  · intro hc
    refine ⟨by simp [onClose, hc], ?_⟩
    rintro ⟨es0, hd0, rfl⟩ hlive hd
    have hp := pending_le_one es0 hd0
    have hlen := erase_length_of_mem k _ hlive
    have hp0 : (onClose { run Server.initial es0 with
        live := (run Server.initial es0).live.erase k } code).pending = 0 := by
      simp only [Server.pending, onClose, hc] at hp ⊢
      simp only [ne_eq, not_true_eq_false, if_false]
      omega
    have hc2 := run_conn_of_pending_zero _ es hp0 hd
    have hp2 := pending_of_conn _ _ hc2
    simp only [Server.conn, Prod.mk.injEq] at hc2
    refine ⟨hp0, ?_, ?_, ?_, ?_⟩
    · rw [hc2.2.1]; rfl
    · rw [hc2.1]; rfl
    · rw [hc2.2.2.2.2.2]; rfl
    · rw [hp2]; exact hp0

/-! ## The fuel of the send loop is enough -/

theorem park_hung (l : Loop) (t : Nat) (pc : Pc) (s : Server) :
    (park l t pc s).hung = s.hung := rfl

/-- An attempt suspends the loop, with or without a socket. -/
theorem runLoop_atRecv_running (l : Loop) (t : Nat) (stamp : Str) (f i j : Nat) (s : Server)
    (hl : s.isLooping = true) (hj : j < l.receivers.length) :
    (runLoop l t stamp (f + 1) (.atRecv i j) s).hung = s.hung := by
  rw [runLoop_atRecv, if_pos hj]
  simp only [hl, Bool.not_true, Bool.false_eq_true, if_false]
  cases s.globalSocket <;> rfl

/-- A running job with a receiver and a line reaches its next `await` within
the fuel, from the start of the loop and after a delay. -/
theorem runLoop_running_suspends (l : Loop) (t : Nat) (stamp : Str) (s : Server) (i j : Nat)
    (hl : s.isLooping = true)
    (hn : 0 < l.receivers.length) (hm : 0 < l.lines.length) :
    (runLoop l t stamp (loopFuel l) .atWhile s).hung = s.hung ∧
      (runLoop l t stamp (loopFuel l) (.atRecv i j) s).hung = s.hung := by
  constructor
  · show (runLoop l t stamp ((2 * l.lines.length + 5) + 1) .atWhile s).hung = _
    rw [runLoop_atWhile, if_pos hl]
    show (runLoop l t stamp ((2 * l.lines.length + 4) + 1) (.atLine 0) s).hung = _
    rw [runLoop_atLine, if_pos hm]
    exact runLoop_atRecv_running l t stamp _ 0 0 s hl hn
  · show (runLoop l t stamp ((2 * l.lines.length + 5) + 1) (.atRecv i j) s).hung = _
    by_cases h1 : j < l.receivers.length
    · exact runLoop_atRecv_running l t stamp _ i j s hl h1
    · rw [runLoop_atRecv, if_neg h1]
      show (runLoop l t stamp ((2 * l.lines.length + 4) + 1) (.atLine (i + 1)) s).hung = _
      rw [runLoop_atLine]
      by_cases h2 : i + 1 < l.lines.length
      · rw [if_pos h2]
        exact runLoop_atRecv_running l t stamp _ (i + 1) 0 s hl hn
      · rw [if_neg h2]
        show (runLoop l t stamp ((2 * l.lines.length + 3) + 1) .atWhile s).hung = _
        rw [runLoop_atWhile, if_pos hl]
        show (runLoop l t stamp ((2 * l.lines.length + 2) + 1) (.atLine 0) s).hung = _
        rw [runLoop_atLine, if_pos hm]
        exact runLoop_atRecv_running l t stamp _ 0 0 s hl hn

/-- The fuel given to the loop is enough: when the run from the start of the
loop, or from the receiver loop after a delay, ends without fuel in an event
loop that was not stuck, then it ends without fuel whatever the fuel, that is,
the loop never reaches an `await`. -/
theorem loopFuel_enough (l : Loop) (t : Nat) (stamp : Str) (s : Server) (pc : Pc)
    (hpc : pc = .atWhile ∨ ∃ i j, pc = .atRecv i j) (hh : s.hung = false)
    (hout : (runLoop l t stamp (loopFuel l) pc s).hung = true) :
    ∀ fuel, (runLoop l t stamp fuel pc s).hung = true := by
  have hl : s.isLooping = true := by
    by_contra hc
    have hl2 : s.isLooping = false := by simpa using hc
    rcases hpc with rfl | ⟨i, j, rfl⟩
    · have : runLoop l t stamp (loopFuel l) .atWhile s = park l t .finished s := by
        show runLoop l t stamp ((2 * l.lines.length + 5) + 1) .atWhile s = _
        rw [runLoop_atWhile]; simp [hl2]
      rw [this, park_hung, hh] at hout
      exact Bool.noConfusion hout
    · rw [runLoop_atRecv_stopped l t stamp s hl2 i j, park_hung, hh] at hout
      exact Bool.noConfusion hout
  have hempty : l.receivers = [] ∨ l.lines = [] := by
    by_contra hc
    rw [not_or] at hc
    have hn : 0 < l.receivers.length := List.length_pos.mpr hc.1
    have hm : 0 < l.lines.length := List.length_pos.mpr hc.2
    rcases hpc with rfl | ⟨i, j, rfl⟩
    · rw [(runLoop_running_suspends l t stamp s 0 0 hl hn hm).1, hh] at hout
      exact Bool.noConfusion hout
    · rw [(runLoop_running_suspends l t stamp s i j hl hn hm).2, hh] at hout
      exact Bool.noConfusion hout
  intro fuel
  rcases hpc with rfl | ⟨i, j, rfl⟩
  · exact runLoop_spins l t stamp fuel .atWhile s hl hempty
  · by_cases hj : j < l.receivers.length
    · have h1 : (runLoop l t stamp (loopFuel l) (.atRecv i j) s).hung = s.hung :=
        runLoop_atRecv_running l t stamp (2 * l.lines.length + 5) i j s hl hj
      rw [h1, hh] at hout
      exact Bool.noConfusion hout
    · cases fuel with
      | zero => rfl
      | succ f =>
        rw [runLoop_atRecv, if_neg hj]
        exact runLoop_spins l t stamp f (.atLine (i + 1)) s hl hempty

/-- Claim C10. For every identifier string the pairing handler works on the
string with its non-digit characters removed: when nothing remains it fails
with the validation error, whatever the socket; otherwise with no socket it
fails with the state error; otherwise, whether or not the socket is open, the
answer is that of the socket's `requestPairingCode` on exactly the digit
string, its code on success and a transport error carrying its message on
failure. -/
theorem pairHandler_spec (globalSocket : Option Nat) (number : Str)
    (requestPairingCode : Nat → Str → Except String String) :
    (∀ c ∈ stripNonDigits number, c.isDigit = true) ∧
    (stripNonDigits number).Sublist number ∧
    (∀ c ∈ number, c.isDigit = true → c ∈ stripNonDigits number) ∧
    (stripNonDigits number = [] →
      pairHandler globalSocket (some number) requestPairingCode =
        ⟨400, .error "Phone number required"⟩) ∧
    (stripNonDigits number ≠ [] → globalSocket = none →
      pairHandler globalSocket (some number) requestPairingCode =
        ⟨400, .error "Socket not ready"⟩) ∧
    (stripNonDigits number ≠ [] → ∀ sock, globalSocket = some sock →
      pairHandler globalSocket (some number) requestPairingCode =
        match requestPairingCode sock (stripNonDigits number) with
        | .ok code => ⟨200, .pairCode code⟩
        | .error msg => ⟨500, .error msg⟩) := by
  refine ⟨?_, ?_, ?_, ?_, ?_, ?_⟩
  · intro c hc
    exact (List.mem_filter.mp hc).2
  · exact List.filter_sublist number
  · intro c hc hd
    exact List.mem_filter.mpr ⟨hc, hd⟩
  · intro h
    simp [pairHandler, h]
  · intro h hg
    have h2 : (stripNonDigits number).isEmpty = false := by
      cases hs : stripNonDigits number with
      | nil => exact absurd hs h
      | cons _ _ => rfl
    simp [pairHandler, h2, hg]
  · intro h sock hg
    have h2 : (stripNonDigits number).isEmpty = false := by
      cases hs : stripNonDigits number with
      | nil => exact absurd hs h
      | cons _ _ => rfl
    simp [pairHandler, h2, hg]

/-- Instance of C10: `"+91 98765-43210"` with socket 0 present asks the socket
for a code for `"919876543210"`; with no socket the request is refused; and
`"abc"` is refused before the socket is looked at. -/
theorem pairHandler_spec_witness :
    pairHandler (some 0) (some "+91 98765-43210".toList)
        (fun _ digits => .ok (String.mk digits)) = ⟨200, .pairCode "919876543210"⟩ ∧
      pairHandler none (some "+91 98765-43210".toList)
        (fun _ digits => .ok (String.mk digits)) = ⟨400, .error "Socket not ready"⟩ ∧
      pairHandler (some 0) (some "abc".toList)
        (fun _ digits => .ok (String.mk digits)) = ⟨400, .error "Phone number required"⟩ := by
  refine ⟨?_, ?_, ?_⟩
  · have h := (pairHandler_spec (some 0) "+91 98765-43210".toList
      (fun _ digits => .ok (String.mk digits))).2.2.2.2.2 (by decide) 0 rfl
    rw [h]; decide
  · exact (pairHandler_spec none "+91 98765-43210".toList
      (fun _ digits => .ok (String.mk digits))).2.2.2.2.1 (by decide) rfl
  · exact (pairHandler_spec (some 0) "abc".toList
      (fun _ digits => .ok (String.mk digits))).2.2.2.1 (by decide)

/-- Claim C9, at the failing input. A supplied delay of `"0"` is read as the
number 0 and then replaced by the default: the job's `delaySec` is 2 and the
wait after each attempt is 2000 ms, not 0, also in the job a start with delay
`"0"` stores.  The delay `"5"` is kept, and an absent or unreadable field
gives 2. -/
theorem delaySecOf_zero :
    parseInt "0".toList = .int 0 ∧
      delaySecOf (some "0".toList) = .int 2 ∧
      delayMs (delaySecOf (some "0".toList)) = .int 2000 ∧
      delaySecOf (some "5".toList) = .int 5 ∧
      delaySecOf none = .int 2 ∧
      delaySecOf (some "soon".toList) = .int 2 ∧
      (startParsed connected formZero noon).1.lastMessages.delaySec = .int 2 ∧
      (startParsed connected formZero noon).1.loops.map Loop.delaySec = [.int 2] := by
  decide

/-- How line 112 treats the parsed delay: a number other than 0 is the job's
delay; `NaN` and the number 0 both give 2. -/
theorem delaySecOf_cases (field : Str) :
    (∀ n, parseInt field = .int n → n ≠ 0 → delaySecOf (some field) = .int n) ∧
      (parseInt field = .int 0 → delaySecOf (some field) = .int 2) ∧
      (parseInt field = .nan → delaySecOf (some field) = .int 2) ∧
      (∀ negative, parseInt field = .beyond negative →
        delaySecOf (some field) = .beyond negative) := by
  refine ⟨?_, ?_, ?_, ?_⟩
  · intro n h hn
    simp [delaySecOf, h, hn]
  · intro h
    simp [delaySecOf, h]
  · intro h
    simp [delaySecOf, h]
  · intro negative h
    simp [delaySecOf, h]

/-- The numbers `parseInt` reads: exact up to `2^53`, beyond it only the
sign; a negative delay is kept as it is. -/
theorem parseInt_examples :
    parseInt " 12abc".toList = .int 12 ∧
      parseInt "-3".toList = .int (-3) ∧
      parseInt "0x1f".toList = .int 31 ∧
      parseInt "1.5".toList = .int 1 ∧
      parseInt "9007199254740992".toList = .int 9007199254740992 ∧
      parseInt "9007199254740993".toList = .beyond false ∧
      parseInt "".toList = .nan ∧
      delaySecOf (some "-3".toList) = .int (-3) := by
  decide

/-- The guard of line 104: a start request that arrives while `isLooping`
holds is answered with the error `Already running` and changes nothing. -/
theorem startRequest_while_running (s : Server) (h : s.isLooping = true) :
    startRequest s = (s, some ⟨400, .error "Already running"⟩) ∧
      step s .startRequest = s := by
  have h1 : startRequest s = (s, some ⟨400, .error "Already running"⟩) := by
    simp [startRequest, h]
  refine ⟨h1, ?_⟩
  unfold step
  split
  · rfl
  · simp [h1]

/-- Instance of C8 on the connected server: a close with status 428 drops the
socket and sets one timer of 3000 ms; when it fires a new socket, number 1, is
made, and `isConnected` stays false until it opens.  A close with the
logged-out status sets no timer, and `isConnected` stays false whatever a
transport that respects the discipline does afterwards. -/
theorem reconnect_policy_witness :
    (step connected (.connClose 0 428)).timers = [3000] ∧
    (run (step connected (.connClose 0 428)) [.reconnectTimer, .socketUp]).globalSocket =
      some 1 ∧
    (run (step connected (.connClose 0 428)) [.reconnectTimer, .socketUp]).isReady = false ∧
    (step connected (.connClose 0 loggedOut)).timers = [] ∧
    (run (step connected (.connClose 0 loggedOut))
      [.reconnectTimer, .socketUp, .startRequest, .stopRequest]).isReady = false := by
  have h1 := reconnect_policy connected 0 428 [.reconnectTimer, .socketUp]
    (by decide) (by decide)
  have h2 := reconnect_policy connected 0 loggedOut
    [.reconnectTimer, .socketUp, .startRequest, .stopRequest] (by decide) (by decide)
  exact ⟨(h1.2.2.2.1 (by decide)).1, (h1.2.2.2.1 (by decide)).2.2.2.1,
    (h1.2.2.2.1 (by decide)).2.2.2.2.2.2.2, (h2.2.2.2.2 rfl).1,
    ((h2.2.2.2.2 rfl).2 ⟨[.socketUp, .connOpen 0], by decide, rfl⟩ (by decide)
      (by decide)).2.1⟩

/-- Claim C4, at the failing run.  Two start requests arrive while no job
runs, so both pass line 104.  The first callback starts a job, whose first
send settles and is logged.  The second callback then runs while that job is
running: it is answered `Started`, not `Already running`; it replaces the
stored receivers, lines and delay, empties the log, and starts a second loop.
Both loops go on sending. -/
theorem overlapping_starts_both_run :
    (run connected
      [.startRequest, .startRequest, .formParsed formZero noon,
        .sendSettled 0 true noon]).isLooping = true ∧
    (run connected
      [.startRequest, .startRequest, .formParsed formZero noon,
        .sendSettled 0 true noon]).lastMessages =
      ⟨["919876543210@s.whatsapp.net".toList], ["A x".toList, "A y".toList], .int 2⟩ ∧
    (run connected
      [.startRequest, .startRequest, .formParsed formZero noon,
        .sendSettled 0 true noon]).messageLogs =
      ["[12:00:00] ✅ 919876543210@s.whatsapp.net".toList] ∧
    (startParsed
      (run connected
        [.startRequest, .startRequest, .formParsed formZero noon, .sendSettled 0 true noon])
      formOther noon).2 = some ⟨200, .message "Started"⟩ ∧
    (run connected
      [.startRequest, .startRequest, .formParsed formZero noon, .sendSettled 0 true noon,
        .formParsed formOther noon]).lastMessages =
      ⟨["1203630@g.us".toList], ["B z".toList], .int 1⟩ ∧
    (run connected
      [.startRequest, .startRequest, .formParsed formZero noon, .sendSettled 0 true noon,
        .formParsed formOther noon]).messageLogs = [] ∧
    (run connected
      [.startRequest, .startRequest, .formParsed formZero noon, .sendSettled 0 true noon,
        .formParsed formOther noon]).loops.map Loop.pc = [.inDelay 0 0, .inSend 0 0] ∧
    (run connected
      [.startRequest, .startRequest, .formParsed formZero noon, .sendSettled 0 true noon,
        .formParsed formOther noon, .delayElapsed 0 noon, .sendSettled 1 true noon,
        .delayElapsed 1 noon]).sent =
      [⟨0, "919876543210@s.whatsapp.net".toList, "A x".toList⟩,
        ⟨0, "1203630@g.us".toList, "B z".toList⟩,
        ⟨0, "919876543210@s.whatsapp.net".toList, "A y".toList⟩,
        ⟨0, "1203630@g.us".toList, "B z".toList⟩] ∧
    (run connected
      [.startRequest, .startRequest, .formParsed formZero noon, .sendSettled 0 true noon,
        .formParsed formOther noon, .delayElapsed 0 noon, .sendSettled 1 true noon,
        .delayElapsed 1 noon]).loops.map Loop.pc = [.inSend 1 0, .inSend 0 0] := by
  decide

/-- A start whose receiver field is not empty but has no valid token, on a
connected server and with a file: the job is stored and set running, with no
receiver; its loop never reaches an `await`, so no response is sent and the
event loop is stuck. -/
theorem startParsed_no_receiver (s : Server) (form : Form) (stamp : Str) (content : Str)
    (hsock : s.globalSocket.isSome = true) (hready : s.isReady = true)
    (herr : form.err = false) (hfile : form.file = some content)
    (hraw : fieldText form.receiver ≠ [])
    (hr : parseReceivers (fieldText form.receiver) = []) :
    (startParsed s form stamp).2 = none ∧
    (startParsed s form stamp).1.hung = true ∧
    (startParsed s form stamp).1.isLooping = true ∧
    (startParsed s form stamp).1.lastMessages =
      ⟨[], buildLines (fieldText form.name) content, delaySecOf form.delay⟩ := by
  have hraw2 : (fieldText form.receiver).isEmpty = false := by
    cases h : fieldText form.receiver with
    | nil => exact absurd h hraw
    | cons _ _ => rfl
  have hc : (s.globalSocket.isNone || !s.isReady) = false := by
    cases hg : s.globalSocket with
    | none => rw [hg] at hsock; exact Bool.noConfusion hsock
    | some k => simp [hready]
  have hspin := runLoop_spins
    ⟨parseReceivers (fieldText form.receiver), buildLines (fieldText form.name) content,
      delaySecOf form.delay, .atWhile⟩ s.loops.length stamp
    (loopFuel ⟨parseReceivers (fieldText form.receiver),
      buildLines (fieldText form.name) content, delaySecOf form.delay, .atWhile⟩) .atWhile
    { s with
      isLooping := true
      lastMessages :=
        ⟨parseReceivers (fieldText form.receiver), buildLines (fieldText form.name) content,
          delaySecOf form.delay⟩
      messageLogs := []
      loops := s.loops ++
        [⟨parseReceivers (fieldText form.receiver), buildLines (fieldText form.name) content,
          delaySecOf form.delay, .atWhile⟩] } rfl (Or.inl hr)
  have hctl := runLoop_ctl
    ⟨parseReceivers (fieldText form.receiver), buildLines (fieldText form.name) content,
      delaySecOf form.delay, .atWhile⟩ s.loops.length stamp
    (loopFuel ⟨parseReceivers (fieldText form.receiver),
      buildLines (fieldText form.name) content, delaySecOf form.delay, .atWhile⟩) .atWhile
    { s with
      isLooping := true
      lastMessages :=
        ⟨parseReceivers (fieldText form.receiver), buildLines (fieldText form.name) content,
          delaySecOf form.delay⟩
      messageLogs := []
      loops := s.loops ++
        [⟨parseReceivers (fieldText form.receiver), buildLines (fieldText form.name) content,
          delaySecOf form.delay, .atWhile⟩] }
  simp only [Server.ctl, Prod.mk.injEq] at hctl
  unfold startParsed
  simp only [herr, hraw2, hfile, hc, Bool.false_eq_true, if_false]
  rw [if_pos hspin]
  refine ⟨rfl, hspin, hctl.2.2.1, ?_⟩
  rw [hctl.2.2.2.2.1, hr]

/-- Claim C3, at the failing input. On the connected server, a start with the
receiver string `"abc"` and a file: the filtered receiver list is empty, yet
no validation error is answered; the job is stored with no receiver and set
running, and the handler never answers because its loop never yields. -/
theorem startParsed_abc :
    receiversOf "abc".toList = [] ∧
    (startParsed connected formAbc noon).2 = none ∧
    (startParsed connected formAbc noon).1.isLooping = true ∧
    (startParsed connected formAbc noon).1.lastMessages.receivers = [] ∧
    (startParsed connected formAbc noon).1.lastMessages.lines = ["Bot Hello".toList] ∧
    (startParsed connected formAbc noon).1.hung = true := by
  decide

/-- Claim C6, at the failing run. A job for one individual receiver is started;
its first send settles; the job is stopped and a job for a group is started
while the first loop sits in its delay.  The log is empty at the new start.
Then the first loop's delay elapses: it finds `isLooping` true again, sends
its second line to its own receiver, and when that send settles the line is
appended to the new job's log. -/
theorem stale_loop_survives_restart :
    (run Server.initial
      [.socketUp, .connOpen 0, .startRequest, .formParsed formZero noon,
        .sendSettled 0 true noon, .stopRequest, .startRequest,
        .formParsed formOther noon]).messageLogs = [] ∧
    (run Server.initial
      [.socketUp, .connOpen 0, .startRequest, .formParsed formZero noon,
        .sendSettled 0 true noon, .stopRequest, .startRequest,
        .formParsed formOther noon]).lastMessages.receivers = ["1203630@g.us".toList] ∧
    (run Server.initial
      [.socketUp, .connOpen 0, .startRequest, .formParsed formZero noon,
        .sendSettled 0 true noon, .stopRequest, .startRequest,
        .formParsed formOther noon, .delayElapsed 0 noon,
        .sendSettled 0 true noon]).sent =
      [⟨0, "919876543210@s.whatsapp.net".toList, "A x".toList⟩,
        ⟨0, "1203630@g.us".toList, "B z".toList⟩,
        ⟨0, "919876543210@s.whatsapp.net".toList, "A y".toList⟩] ∧
    (run Server.initial
      [.socketUp, .connOpen 0, .startRequest, .formParsed formZero noon,
        .sendSettled 0 true noon, .stopRequest, .startRequest,
        .formParsed formOther noon, .delayElapsed 0 noon,
        .sendSettled 0 true noon]).messageLogs =
      ["[12:00:00] ✅ 919876543210@s.whatsapp.net".toList] ∧
    (run Server.initial
      [.socketUp, .connOpen 0, .startRequest, .formParsed formZero noon,
        .sendSettled 0 true noon, .stopRequest, .startRequest,
        .formParsed formOther noon, .delayElapsed 0 noon,
        .sendSettled 0 true noon]).loops.map Loop.pc = [.inDelay 1 0, .inSend 0 0] := by
  decide

end Broadcast
